import Mathlib

set_option maxRecDepth 4000

/-!
# Verification of the pdf-parser-workbench extraction pipeline

Shallow embedding, in Lean 4, of the core logic of the repository:

* `src/utils.py` — `get_safe_filename`, `export_json`;
* `src/evaluation.py` — `calculate_metrics`, `get_chunking_preview`;
* `src/parsers.py` — page-range normalization and result assembly of
  `parse_pymupdf`, `parse_pdfplumber`, `parse_ocr`, the `parse_nougat`
  LaTeX-block scan, and the page coverage of `parse_nougat` / `parse_grobid`;
* `app.py` — the orchestration loop (backend dispatch, exception capture,
  OCR fallback) and the primary-text selection points.

External collaborators (PDF libraries, Tesseract, LangChain's text splitter,
the `nougat` executable, the GROBID HTTP service) are modelled as parameters;
everything that is code of the repository is translated directly from source.
Machine strings are modelled as Lean `String` / `List Char` (the repository
manipulates Python `str` values, which are sequences of code points, exactly
as `List Char` is).
-/

/-! ## Python built-in helpers -/

/-- Python list slicing `xs[:m]` for an arbitrary integer bound `m`:
a negative bound counts from the end of the list (`xs[:-k]` drops the last
`k` elements), and an out-of-range bound clamps. -/
def pySliceTo (m : Int) {α : Type} (xs : List α) : List α :=
  if m < 0 then xs.take ((xs.length : Int) + m).toNat else xs.take m.toNat

/-- The ASCII whitespace characters recognised by Python's `str.strip()` /
`str.split()` / the regex class `\s` (`' '`, `\t`, `\n`, `\r`, `\v`, `\f`).
Python also strips some further Unicode whitespace; the repository only ever
meets ASCII whitespace in the constructs modelled here. -/
def pyWs (c : Char) : Bool :=
  c == ' ' || c == '\t' || c == '\n' || c == '\r' ||
    c == Char.ofNat 11 || c == Char.ofNat 12

/-- Python `s.split('\n')`: split at every newline, keeping empty pieces
(`''.split('\n') == ['']`). -/
def splitNl : List Char → List (List Char)
  | [] => [[]]
  | c :: cs =>
    match splitNl cs with
    | [] => [[c]]
    | l :: ls => if c = '\n' then [] :: l :: ls else (c :: l) :: ls

/-- Python `s.strip()` restricted to ASCII whitespace. -/
def pyStrip (cs : List Char) : List Char :=
  (((cs.dropWhile pyWs).reverse).dropWhile pyWs).reverse

/-! ## `src/utils.py` — `get_safe_filename` -/

/-- The character class removed by `re.sub(r'[\\/*?:"<>|]', "", base_name)`
in `get_safe_filename`. -/
def invalidFilenameChars : List Char := ['\\', '/', '*', '?', ':', '"', '<', '>', '|']

/-- `os.path.basename` (POSIX): everything after the last `'/'`. -/
def py_basename (cs : List Char) : List Char :=
  cs.foldl (fun acc c => if c = '/' then [] else acc ++ [c]) []

/-- Index of the last `'.'` in the list, if any. -/
def lastDotIdx (cs : List Char) : Option Nat :=
  (List.range cs.length).foldl
    (fun acc i => if cs.getD i ' ' = '.' then some i else acc) none

/-- `os.path.splitext` (POSIX) on a path without separators: split at the last
dot, unless every character before it is itself a dot (so `".bashrc"` has no
extension).  `get_safe_filename` only applies it after all `'/'` have been
removed. -/
def py_splitext (cs : List Char) : List Char × List Char :=
  match lastDotIdx cs with
  | none => (cs, [])
  | some d =>
    if (cs.take d).all (fun c => c = '.') then (cs, [])
    else (cs.take d, cs.drop d)

/-- `get_safe_filename` from `src/utils.py`, on character lists:
basename, remove the invalid characters, replace spaces by underscores, and
truncate to 100 characters preserving the extension. -/
def get_safe_filename_chars (cs : List Char) : List Char :=
  let base := py_basename cs
  let safe := base.filter (fun c => !(invalidFilenameChars.contains c))
  let safe2 := safe.map (fun c => if c = ' ' then '_' else c)
  if 100 < safe2.length then
    let ne := py_splitext safe2
    pySliceTo (100 - (ne.2.length : Int) - 1) ne.1 ++ ne.2
  else safe2

/-- `get_safe_filename` from `src/utils.py`. -/
def get_safe_filename (s : String) : String := ⟨get_safe_filename_chars s.data⟩

/-! ## `src/evaluation.py` — `get_chunking_preview` -/

/-- The dictionary returned by `get_chunking_preview`. -/
structure ChunkPreview where
  chunks : List String
  total_chunks : Nat
  error : Option String
  deriving DecidableEq

/-- `get_chunking_preview` from `src/evaluation.py`.  LangChain's
`RecursiveCharacterTextSplitter.split_text` is an external collaborator and is
passed in as the function `split` (the real splitter returns `[]` on the empty
string).  The `isinstance(text_content, str)` check is subsumed by typing. -/
def get_chunking_preview (split : String → List String) (text_content : String)
    (strategy : String) (chunk_size chunk_overlap max_preview_chunks : Int) :
    ChunkPreview :=
  if chunk_size ≤ 0 then ⟨[], 0, some "Chunk size must be positive"⟩
  else if chunk_overlap < 0 then ⟨[], 0, some "Chunk overlap cannot be negative"⟩
  else if chunk_size ≤ chunk_overlap then
    ⟨[], 0, some "Chunk overlap must be smaller than chunk size"⟩
  else if strategy = "recursive" then
    let chunks := split text_content
    ⟨pySliceTo max_preview_chunks chunks, chunks.length, none⟩
  else ⟨[], 0, some ("Unknown or unimplemented chunking strategy: " ++ strategy)⟩

/-! ## `src/parsers.py` — the `parse_nougat` LaTeX-block scan -/

/-- State of the line scan at `src/parsers.py:219-236`: collected blocks
(each a list of lines), the `in_latex` flag, and the current open block. -/
structure NougatScanState where
  blocks : List (List (List Char))
  inLatex : Bool
  current : List (List Char)
  deriving DecidableEq

/-- `line.strip().startswith('$$')`. -/
def startsDD (line : List Char) : Bool :=
  match pyStrip line with
  | '$' :: '$' :: _ => true
  | _ => false

/-- One iteration of the `for line in result['markdown'].split('\n')` loop in
`parse_nougat`. -/
def latexStep (st : NougatScanState) (line : List Char) : NougatScanState :=
  if startsDD line then
    if st.inLatex then ⟨st.blocks ++ [st.current], false, []⟩
    else ⟨st.blocks, true, []⟩
  else if st.inLatex then ⟨st.blocks, st.inLatex, st.current ++ [line]⟩
  else st

/-- The whole scan, from the initial state `([], False, [])`. -/
def latexScan (lines : List (List Char)) : NougatScanState :=
  lines.foldl latexStep ⟨[], false, []⟩

/-- `result['latex_blocks']` as computed by `parse_nougat`: each collected
block is `'\n'.join(current_block)`. -/
def nougat_latex_blocks (markdown : String) : List String :=
  (latexScan (splitNl markdown.data)).blocks.map
    (fun b => String.intercalate "\n" (b.map (fun l => String.mk l)))

/-- `result['latex_equations_count'] = len(latex_blocks)`. -/
def nougat_latex_equations_count (markdown : String) : Nat :=
  (nougat_latex_blocks markdown).length

/-! ## Helper lemmas -/

theorem pySliceTo_sublist (m : Int) (xs : List α) : (pySliceTo m xs).Sublist xs := by
  unfold pySliceTo
  split <;> exact List.take_sublist _ _

theorem pySliceTo_length_le (m : Int) (xs : List α) :
    (pySliceTo m xs).length ≤ xs.length :=
  (pySliceTo_sublist m xs).length_le

theorem mem_py_splitext_name {c : Char} {cs : List Char}
    (h : c ∈ (py_splitext cs).1) : c ∈ cs := by
  unfold py_splitext at h
  revert h
  split
  · exact fun h => h
  · split
    · exact fun h => h
    · exact fun h => List.take_subset _ _ h

theorem mem_py_splitext_ext {c : Char} {cs : List Char}
    (h : c ∈ (py_splitext cs).2) : c ∈ cs := by
  unfold py_splitext at h
  revert h
  split
  · simp
  · split
    · simp
    · exact fun h => List.drop_subset _ _ h

theorem mem_get_safe_filename_chars {c : Char} {cs : List Char}
    (h : c ∈ get_safe_filename_chars cs) :
    c ∈ ((py_basename cs).filter (fun c => !(invalidFilenameChars.contains c))).map
        (fun c => if c = ' ' then '_' else c) := by
  unfold get_safe_filename_chars at h
  dsimp only at h
  split at h
  · rcases List.mem_append.mp h with h1 | h2
    · exact mem_py_splitext_name ((pySliceTo_sublist _ _).subset h1)
    · exact mem_py_splitext_ext h2
  · exact h

/-- **C9** (for every input, the filename returned by `get_safe_filename`
contains no space and none of the characters `\ / * ? : " < > |`). -/
theorem get_safe_filename_no_invalid_chars (s : String) :
    (get_safe_filename s).data.all
      (fun c => !(invalidFilenameChars.contains c) && c != ' ') = true := by
  rw [List.all_eq_true]
  intro c hc
  have hmem := @mem_get_safe_filename_chars c s.data hc
  rw [List.mem_map] at hmem
  obtain ⟨b, hb, rfl⟩ := hmem
  rw [List.mem_filter] at hb
  by_cases hsp : b = ' '
  · subst hsp
    simp [invalidFilenameChars]
  · rw [if_neg hsp]
    simp only [Bool.and_eq_true, bne_iff_ne, ne_eq]
    exact ⟨hb.2, hsp⟩

theorem latexStep_blocks_not_dd (st : NougatScanState) (l : List Char)
    (hl : startsDD l = false) : (latexStep st l).blocks = st.blocks := by
  simp only [latexStep, hl, Bool.false_eq_true, if_false]
  split <;> rfl

theorem latexStep_inLatex_not_dd (st : NougatScanState) (l : List Char)
    (hl : startsDD l = false) : (latexStep st l).inLatex = st.inLatex := by
  simp only [latexStep, hl, Bool.false_eq_true, if_false]
  split <;> rfl

theorem latexStep_dd (st : NougatScanState) (l : List Char)
    (hl : startsDD l = true) :
    latexStep st l = if st.inLatex then ⟨st.blocks ++ [st.current], false, []⟩
      else ⟨st.blocks, true, []⟩ := by
  simp only [latexStep, hl, if_true]

theorem latexFold_blocks_no_dd (lines : List (List Char)) (st : NougatScanState)
    (h : lines.countP startsDD = 0) :
    (lines.foldl latexStep st).blocks = st.blocks := by
  induction lines generalizing st with
  | nil => rfl
  | cons l ls ih =>
    rw [List.countP_cons] at h
    cases hb : startsDD l
    · rw [hb] at h
      simp only [Bool.false_eq_true, if_false, Nat.add_zero] at h
      rw [List.foldl_cons, ih _ h, latexStep_blocks_not_dd _ _ hb]
    · rw [hb] at h
      simp at h

theorem latexFold_inLatex_parity (lines : List (List Char)) (st : NougatScanState) :
    ((lines.foldl latexStep st).inLatex = true ↔
      (st.inLatex = true ↔ lines.countP startsDD % 2 = 0)) := by
  induction lines generalizing st with
  | nil => simp
  | cons l ls ih =>
    rw [List.foldl_cons, ih, List.countP_cons]
    cases hl : startsDD l
    · rw [latexStep_inLatex_not_dd _ _ hl]
      simp
    · rw [latexStep_dd st l hl]
      cases hst : st.inLatex <;> simp <;> omega

theorem latexFold_blocks_clean (lines : List (List Char)) (st : NougatScanState)
    (hb : ∀ b ∈ st.blocks, ∀ l ∈ b, startsDD l = false)
    (hc : ∀ l ∈ st.current, startsDD l = false) :
    ∀ b ∈ (lines.foldl latexStep st).blocks, ∀ l ∈ b, startsDD l = false := by
  induction lines generalizing st with
  | nil => exact hb
  | cons x xs ih =>
    rw [List.foldl_cons]
    cases hx : startsDD x
    · apply ih
      · rw [latexStep_blocks_not_dd _ _ hx]; exact hb
      · intro l hl
        revert hl
        simp only [latexStep, hx, Bool.false_eq_true, if_false]
        split
        · intro hl
          rcases List.mem_append.mp hl with h1 | h2
          · exact hc _ h1
          · rw [List.mem_singleton] at h2; subst h2; exact hx
        · exact hc l
    · rw [latexStep_dd _ _ hx]
      cases hst : st.inLatex
      · simp only [Bool.false_eq_true, if_false]
        exact ih _ hb (by intro l hl; exact absurd hl (List.not_mem_nil l))
      · simp only [if_true]
        apply ih
        · intro b hbm
          rcases List.mem_append.mp hbm with h1 | h2
          · exact hb _ h1
          · rw [List.mem_singleton] at h2; subst h2; exact hc
        · intro l hl; exact absurd hl (List.not_mem_nil l)

/-- **C10** (the `parse_nougat` LaTeX-block scan collects a block only between
a matched pair of `$$`-delimiter lines: with an odd number of delimiter lines,
everything after the final unmatched delimiter is dropped, no delimiter line is
ever part of a collected block, and `latex_equations_count` equals the length
of `latex_blocks`). -/
theorem nougat_latex_scan_spec (md : String) (pre post : List (List Char))
    (d : List Char)
    (hsplit : splitNl md.data = pre ++ d :: post)
    (hd : startsDD d = true)
    (hpost : post.countP startsDD = 0)
    (hodd : (splitNl md.data).countP startsDD % 2 = 1) :
    (latexScan (splitNl md.data)).blocks = (latexScan pre).blocks
    ∧ (∀ b ∈ (latexScan (splitNl md.data)).blocks, ∀ l ∈ b, startsDD l = false)
    ∧ nougat_latex_equations_count md = (nougat_latex_blocks md).length := by
  refine ⟨?_, ?_, rfl⟩
  · rw [hsplit] at hodd ⊢
    rw [List.countP_append, List.countP_cons, hd] at hodd
    simp only [eq_self_iff_true, if_true] at hodd
    rw [hpost] at hodd
    have hpre_even : pre.countP startsDD % 2 = 0 := by omega
    unfold latexScan
    rw [List.foldl_append, List.foldl_cons]
    have hpre_inLatex : (pre.foldl latexStep ⟨[], false, []⟩).inLatex = false := by
      cases hq : (pre.foldl latexStep (⟨[], false, []⟩ : NougatScanState)).inLatex
      · rfl
      · have := (latexFold_inLatex_parity pre ⟨[], false, []⟩).mp hq
        simp only [Bool.false_eq_true, false_iff] at this
        exact absurd hpre_even this
    rw [latexStep_dd _ _ hd, hpre_inLatex]
    simp only [Bool.false_eq_true, if_false]
    rw [latexFold_blocks_no_dd _ _ hpost]
  · apply latexFold_blocks_clean
    · intro b hb; exact absurd hb (List.not_mem_nil b)
    · intro l hl; exact absurd hl (List.not_mem_nil l)

/-- Witness for C10 at the concrete markup `"$$\nx\n$$\ny\n$$\nz"`
(three delimiter lines, so the trailing `z` is dropped). -/
theorem nougat_latex_scan_spec_witness :
    (splitNl "$$\nx\n$$\ny\n$$\nz".data
        = [['$','$'], ['x'], ['$','$'], ['y']] ++ ['$','$'] :: [['z']]
      ∧ startsDD ['$','$'] = true
      ∧ ([['z']] : List (List Char)).countP startsDD = 0
      ∧ (splitNl "$$\nx\n$$\ny\n$$\nz".data).countP startsDD % 2 = 1)
    ∧ ((latexScan (splitNl "$$\nx\n$$\ny\n$$\nz".data)).blocks
        = (latexScan [['$','$'], ['x'], ['$','$'], ['y']]).blocks
      ∧ (∀ b ∈ (latexScan (splitNl "$$\nx\n$$\ny\n$$\nz".data)).blocks,
          ∀ l ∈ b, startsDD l = false)
      ∧ nougat_latex_equations_count "$$\nx\n$$\ny\n$$\nz"
          = (nougat_latex_blocks "$$\nx\n$$\ny\n$$\nz").length) :=
  ⟨⟨by decide, by decide, by decide, by decide⟩,
    nougat_latex_scan_spec "$$\nx\n$$\ny\n$$\nz"
      [['$','$'], ['x'], ['$','$'], ['y']] [['z']] ['$','$']
      (by decide) (by decide) (by decide) (by decide)⟩

/-- **C8 counterexample**: `max_preview_chunks` is never examined by the
validation in `get_chunking_preview`, so `-1` is an accepted configuration.
On an empty chunk list (the real splitter returns `[]` for `""`) the preview
equals the total (`0 = 0`) although `total_chunks ≤ max_preview_chunks`
fails, contradicting "equality exactly when `total_chunks ≤
max_preview_chunks`". -/
theorem get_chunking_preview_equality_claim_false :
    (get_chunking_preview (fun _ => []) "" "recursive" 1000 100 (-1)).error = none
    ∧ (get_chunking_preview (fun _ => []) "" "recursive" 1000 100 (-1)).total_chunks
        = (get_chunking_preview (fun _ => []) "" "recursive" 1000 100 (-1)).chunks.length
    ∧ ¬ (((get_chunking_preview (fun _ => []) "" "recursive" 1000 100 (-1)).total_chunks : Int)
        ≤ -1) := by
  refine ⟨rfl, rfl, by decide⟩

/-- **C8 amended** (for every accepted configuration with a nonnegative
preview limit, `total_chunks ≥ len(chunks)`, with equality exactly when
`total_chunks ≤ max_preview_chunks`; truncating the preview never changes the
reported total). -/
theorem get_chunking_preview_total_vs_shown (split : String → List String)
    (text strategy : String) (size overlap m : Int) (hm : 0 ≤ m) :
    (get_chunking_preview split text strategy size overlap m).chunks.length
      ≤ (get_chunking_preview split text strategy size overlap m).total_chunks
    ∧ ((get_chunking_preview split text strategy size overlap m).error = none →
        ((get_chunking_preview split text strategy size overlap m).total_chunks
          = (get_chunking_preview split text strategy size overlap m).chunks.length
        ↔ ((get_chunking_preview split text strategy size overlap m).total_chunks : Int)
            ≤ m)) := by
  unfold get_chunking_preview
  split
  · exact ⟨Nat.le_refl 0, by intro h; cases h⟩
  split
  · exact ⟨Nat.le_refl 0, by intro h; cases h⟩
  split
  · exact ⟨Nat.le_refl 0, by intro h; cases h⟩
  split
  · dsimp only
    have hslice : pySliceTo m (split text) = (split text).take m.toNat := by
      unfold pySliceTo
      rw [if_neg (by omega)]
    rw [hslice, List.length_take]
    constructor
    · exact Nat.min_le_right _ _
    · intro _
      omega
  · exact ⟨Nat.le_refl 0, by intro h; cases h⟩

/-- Witness for C8 at a concrete splitter and configuration. -/
theorem get_chunking_preview_total_vs_shown_witness :
    (0 : Int) ≤ 1
    ∧ ((get_chunking_preview (fun _ => ["ab", "cd", "ef"]) "abcdef" "recursive" 2 0 1).chunks.length
        ≤ (get_chunking_preview (fun _ => ["ab", "cd", "ef"]) "abcdef" "recursive" 2 0 1).total_chunks
      ∧ ((get_chunking_preview (fun _ => ["ab", "cd", "ef"]) "abcdef" "recursive" 2 0 1).error = none →
          ((get_chunking_preview (fun _ => ["ab", "cd", "ef"]) "abcdef" "recursive" 2 0 1).total_chunks
            = (get_chunking_preview (fun _ => ["ab", "cd", "ef"]) "abcdef" "recursive" 2 0 1).chunks.length
          ↔ ((get_chunking_preview (fun _ => ["ab", "cd", "ef"]) "abcdef" "recursive" 2 0 1).total_chunks : Int)
              ≤ 1))) :=
  ⟨by decide,
    get_chunking_preview_total_vs_shown (fun _ => ["ab", "cd", "ef"]) "abcdef"
      "recursive" 2 0 1 (by decide)⟩

/-! ## `src/parsers.py` — extraction results and page-range normalization -/

/-- One table entry produced by `parse_pdfplumber`
(`{"page": ..., "table_index": ..., "data": ...}`); a cell may be `None`. -/
structure TableRecord where
  page : Nat
  table_index : Nat
  data : List (List (Option String))
  deriving DecidableEq

/-- A parser result dictionary.  A field is `none` when the corresponding key
is absent from the dictionary (each parser creates only its own keys); the
`error` key always exists but holds `None` unless a failure occurred, which is
also modelled by `none` — the code only ever reads `error` through its
truthiness or `.get`, so the two cannot be distinguished. -/
structure ExtractionResult where
  text : Option String := none
  markdown : Option String := none
  structured_text : Option String := none
  tables : Option (List TableRecord) := none
  metadata : Option (List (String × String)) := none
  error : Option String := none
  deriving DecidableEq

/-- The 0-indexed pages traversed by `range(max(0, s-1), min(page_count, e))`
(`parse_pymupdf`, `parse_ocr`) or by the slice
`pdf.pages[max(0, s-1):min(len(pdf.pages), e)]` (`parse_pdfplumber`). -/
def normRangePages (count : Nat) (s e : Int) : List Nat :=
  (List.range count).filter
    (fun i => decide (max 0 (s - 1) ≤ (i : Int)) && decide ((i : Int) < min (count : Int) e))

/-- Pages processed by `parse_pymupdf` (no degenerate-range check exists for
this backend). -/
def pymupdf_pagesProcessed (count : Nat) (page_range : Option (Int × Int)) : List Nat :=
  match page_range with
  | none => List.range count
  | some (s, e) => normRangePages count s e

/-- `parse_pymupdf` from `src/parsers.py:23-47`, given an opened document
(its page texts and metadata dictionary; `fitz` itself is external).  There is
no page-range validation: the result's `error` stays `None` whenever the
document opens, and `range(start, end)` only ever yields in-bounds indices, so
no exception can arise from the range either. -/
def parse_pymupdf (pages : List String) (meta : List (String × String))
    (page_range : Option (Int × Int)) : ExtractionResult :=
  { text := some (String.intercalate "\n"
      ((pymupdf_pagesProcessed pages.length page_range).map (fun i => pages.getD i "")))
    metadata := some meta
    error := none }

/-- One opened `pdfplumber` page: its `extract_text()` result (possibly
`None`) and its `extract_tables()` result. -/
structure PlumberPage where
  pageText : Option String
  pageTables : List (List (List (Option String)))
  deriving DecidableEq

/-- Pages processed by `parse_pdfplumber`: empty when the clamped range is
degenerate (the function errors out before slicing). -/
def pdfplumber_pagesProcessed (count : Nat) (page_range : Option (Int × Int)) : List Nat :=
  match page_range with
  | none => List.range count
  | some (s, e) =>
    if max 0 (s - 1) ≥ min (count : Int) e then [] else normRangePages count s e

/-- The page/text/table assembly loop of `parse_pdfplumber`
(`src/parsers.py:65-81`): a page's text is kept only if truthy, each table on
a page becomes a record carrying the 1-based page number and its index. -/
def plumber_assemble (pages : List PlumberPage) (idxs : List Nat) : ExtractionResult :=
  let texts := idxs.filterMap (fun i =>
    match (pages.getD i ⟨none, []⟩).pageText with
    | none => none
    | some t => if t = "" then none else some t)
  let tabs := idxs.flatMap (fun i =>
    ((pages.getD i ⟨none, []⟩).pageTables).enum.map
      (fun p => ({ page := i + 1, table_index := p.1, data := p.2 } : TableRecord)))
  { text := some (String.intercalate "\n---\n" texts)
    tables := some tabs
    error := none }

/-- `parse_pdfplumber` from `src/parsers.py:49-89`, given an opened document.
A degenerate clamped range is reported as an `Invalid page range` error with
the content fields left at their initial values (`text=""`, `tables=[]`). -/
def parse_pdfplumber (pages : List PlumberPage) (page_range : Option (Int × Int)) :
    ExtractionResult :=
  match page_range with
  | none => plumber_assemble pages (List.range pages.length)
  | some (s, e) =>
    if max 0 (s - 1) ≥ min (pages.length : Int) e then
      { text := some ""
        tables := some []
        error := some ("Invalid page range: (" ++ toString s ++ ", " ++ toString e
          ++ "). Start page must be less than end page.") }
    else plumber_assemble pages (normRangePages pages.length s e)

/-- Pages rasterized and OCRed by `parse_ocr`: empty when the clamped range is
degenerate (the function errors out before the loop). -/
def ocr_pagesProcessed (count : Nat) (page_range : Option (Int × Int)) : List Nat :=
  match page_range with
  | none => List.range count
  | some (s, e) =>
    if max 0 (s - 1) ≥ min (count : Int) e then [] else normRangePages count s e

/-- `parse_ocr` from `src/parsers.py:91-137`, given an opened document with
`pageCount` pages.  Rendering plus Tesseract is the external collaborator
`ocrPage` (page index to recognised text); the missing-executable and
per-page-failure branches are failures of that external tool and are not
modelled.  A degenerate clamped range is reported as an `Invalid page range`
error with `text` left at `""`. -/
def parse_ocr (pageCount : Nat) (lang : String) (page_range : Option (Int × Int))
    (dpi : Nat) (ocrPage : Nat → String) : ExtractionResult :=
  match page_range with
  | none =>
    { text := some (String.intercalate "\n\n--- Page Break ---\n\n"
        ((List.range pageCount).map ocrPage))
      error := none }
  | some (s, e) =>
    if max 0 (s - 1) ≥ min (pageCount : Int) e then
      { text := some ""
        error := some ("Invalid page range: (" ++ toString s ++ ", " ++ toString e
          ++ "). Start page must be less than end page.") }
    else
      { text := some (String.intercalate "\n\n--- Page Break ---\n\n"
          ((normRangePages pageCount s e).map ocrPage))
        error := none }

/-- The command `parse_nougat` spawns (`src/parsers.py:172-177`).  It carries
no page-selection flag, so the external `nougat` tool processes the whole
document; the `page_range` argument of `parse_nougat` only affects the
progress `total_pages` estimate. -/
def nougat_command (pdf_path output_dir : String) : List String :=
  ["nougat", pdf_path, "-o", output_dir, "--no-skipping"]

/-- Pages processed by the nougat invocation: all of them, for any requested
range (see `nougat_command`). -/
def nougat_pagesProcessed (count : Nat) (page_range : Option (Int × Int)) : List Nat :=
  List.range count

/-- Pages processed by `parse_grobid`: the function has no page-range
parameter at all (`app.py:200` deletes the key before the call) and uploads
the whole file to the service's full-text endpoint. -/
def grobid_pagesProcessed (count : Nat) (page_range : Option (Int × Int)) : List Nat :=
  List.range count

/-- **C1 counterexample**: `parse_pymupdf` performs no page-range validation;
for the degenerate request `(2, 1)` it returns `error = None` with the
metadata populated (the claim demands `error` set and no content fields
populated for every backend). -/
theorem invalid_range_error_claim_false :
    (parse_pymupdf ["page one", "page two"] [("title", "t")] (some (2, 1))).error = none
    ∧ (parse_pymupdf ["page one", "page two"] [("title", "t")] (some (2, 1))).metadata
        = some [("title", "t")] :=
  ⟨rfl, rfl⟩

/-- **C1 amended** (for `s > e`, `parse_pdfplumber` and `parse_ocr` return an
`ExtractionResult` with `error` set and the content fields at their empty
initial values, while `parse_pymupdf` reports no error at all — it returns
empty text with the metadata still populated). -/
theorem invalid_range_behaviour (pages : List PlumberPage) (texts : List String)
    (meta : List (String × String)) (count : Nat) (lang : String) (dpi : Nat)
    (ocrPage : Nat → String) (s e : Int) (h : e < s) :
    ((parse_pdfplumber pages (some (s, e))).error.isSome = true
      ∧ (parse_pdfplumber pages (some (s, e))).text = some ""
      ∧ (parse_pdfplumber pages (some (s, e))).tables = some [])
    ∧ ((parse_ocr count lang (some (s, e)) dpi ocrPage).error.isSome = true
      ∧ (parse_ocr count lang (some (s, e)) dpi ocrPage).text = some "")
    ∧ (parse_pymupdf texts meta (some (s, e))).error = none := by
  have h1 : max 0 (s - 1) ≥ min ((pages.length : Nat) : Int) e := by
    have := Int.min_le_right ((pages.length : Nat) : Int) e
    omega
  have h2 : max 0 (s - 1) ≥ min ((count : Nat) : Int) e := by
    have := Int.min_le_right ((count : Nat) : Int) e
    omega
  refine ⟨?_, ?_, rfl⟩
  · simp only [parse_pdfplumber]
    rw [if_pos h1]
    exact ⟨rfl, rfl, rfl⟩
  · simp only [parse_ocr]
    rw [if_pos h2]
    exact ⟨rfl, rfl⟩

/-- Witness for C1 (amended) at a concrete two-page document and the range
`(2, 1)`. -/
theorem invalid_range_behaviour_witness :
    ((1 : Int) < 2)
    ∧ (((parse_pdfplumber [⟨some "a", []⟩] (some (2, 1))).error.isSome = true
      ∧ (parse_pdfplumber [⟨some "a", []⟩] (some (2, 1))).text = some ""
      ∧ (parse_pdfplumber [⟨some "a", []⟩] (some (2, 1))).tables = some [])
    ∧ ((parse_ocr 1 "eng" (some (2, 1)) 300 (fun _ => "o")).error.isSome = true
      ∧ (parse_ocr 1 "eng" (some (2, 1)) 300 (fun _ => "o")).text = some "")
    ∧ (parse_pymupdf ["a"] [] (some (2, 1))).error = none) :=
  ⟨by decide,
    invalid_range_behaviour [⟨some "a", []⟩] ["a"] [] 1 "eng" 300 (fun _ => "o")
      2 1 (by decide)⟩

theorem normRangePages_mem (count : Nat) (s e : Int) (i : Nat)
    (he : e ≤ (count : Int)) :
    (i ∈ normRangePages count s e) ↔ (s ≤ (i : Int) + 1 ∧ (i : Int) + 1 ≤ e) := by
  unfold normRangePages
  rw [List.mem_filter, List.mem_range]
  simp only [Bool.and_eq_true, decide_eq_true_eq]
  omega

/-- **C2 counterexample**: for a two-page document and the valid range
`(1, 1)`, both `parse_grobid` (which takes no page-range at all) and the
nougat invocation (whose command has no page flags) process both pages, not
just page 1. -/
theorem full_document_backends_pages_claim_false :
    grobid_pagesProcessed 2 (some (1, 1)) = [0, 1]
    ∧ nougat_pagesProcessed 2 (some (1, 1)) = [0, 1]
    ∧ ¬ (∀ i, i ∈ grobid_pagesProcessed 2 (some (1, 1)) ↔
          ((1 : Int) ≤ (i : Int) + 1 ∧ (i : Int) + 1 ≤ 1)) := by
  refine ⟨rfl, rfl, fun h => ?_⟩
  have := (h 1).mp (by decide)
  omega

/-- **C2 amended** (for every valid range `1 ≤ s ≤ e ≤ total_pages`, the
pages processed by `parse_pymupdf`, `parse_pdfplumber` and `parse_ocr` after
their own normalization are exactly the 1-indexed pages `s..e`; `parse_nougat`
and `parse_grobid` instead always process the full document). -/
theorem valid_range_pages_processed (count : Nat) (s e : Int)
    (hs : 1 ≤ s) (hse : s ≤ e) (he : e ≤ (count : Int)) (i : Nat) :
    ((i ∈ pymupdf_pagesProcessed count (some (s, e))) ↔
        (s ≤ (i : Int) + 1 ∧ (i : Int) + 1 ≤ e))
    ∧ ((i ∈ pdfplumber_pagesProcessed count (some (s, e))) ↔
        (s ≤ (i : Int) + 1 ∧ (i : Int) + 1 ≤ e))
    ∧ ((i ∈ ocr_pagesProcessed count (some (s, e))) ↔
        (s ≤ (i : Int) + 1 ∧ (i : Int) + 1 ≤ e))
    ∧ ((i ∈ nougat_pagesProcessed count (some (s, e))) ↔ i < count)
    ∧ ((i ∈ grobid_pagesProcessed count (some (s, e))) ↔ i < count) := by
  have hnd : ¬ (max 0 (s - 1) ≥ min ((count : Nat) : Int) e) := by
    have h1 : min ((count : Nat) : Int) e = e := by
      rw [min_eq_right he]
    omega
  refine ⟨normRangePages_mem count s e i he, ?_, ?_, List.mem_range, List.mem_range⟩
  · simp only [pdfplumber_pagesProcessed]
    rw [if_neg hnd]
    exact normRangePages_mem count s e i he
  · simp only [ocr_pagesProcessed]
    rw [if_neg hnd]
    exact normRangePages_mem count s e i he

/-- Witness for C2 (amended): a three-page document with range `(2, 3)`,
checking page index 1 (1-indexed page 2). -/
theorem valid_range_pages_processed_witness :
    ((1 : Int) ≤ 2 ∧ (2 : Int) ≤ 3 ∧ (3 : Int) ≤ ((3 : Nat) : Int))
    ∧ (((1 ∈ pymupdf_pagesProcessed 3 (some (2, 3))) ↔
        ((2 : Int) ≤ ((1 : Nat) : Int) + 1 ∧ ((1 : Nat) : Int) + 1 ≤ 3))
    ∧ ((1 ∈ pdfplumber_pagesProcessed 3 (some (2, 3))) ↔
        ((2 : Int) ≤ ((1 : Nat) : Int) + 1 ∧ ((1 : Nat) : Int) + 1 ≤ 3))
    ∧ ((1 ∈ ocr_pagesProcessed 3 (some (2, 3))) ↔
        ((2 : Int) ≤ ((1 : Nat) : Int) + 1 ∧ ((1 : Nat) : Int) + 1 ≤ 3))
    ∧ ((1 ∈ nougat_pagesProcessed 3 (some (2, 3))) ↔ 1 < 3)
    ∧ ((1 ∈ grobid_pagesProcessed 3 (some (2, 3))) ↔ 1 < 3)) :=
  ⟨⟨by decide, by decide, by decide⟩,
    valid_range_pages_processed 3 2 3 (by decide) (by decide) (by decide) 1⟩

/-! ## `src/evaluation.py` — `calculate_metrics`

The two equation heuristics are `re.findall` counts for the patterns
`(?<!\\)\$.*?(?<!\\)\$` (inline, `.` does not cross newlines) and
`(?<!\\)\$\$.*?(?<!\\)\$\$` with `re.DOTALL` (display).  `re.findall` takes
the leftmost match, with the lazy `.*?` making it the shortest one from that
start, and resumes scanning at the end of the match (matches never overlap).
The section heuristics are `re.findall` counts for `^\s*#{1,6}\s+.*` and
`^\s*\d+\.\s+.*` with `re.MULTILINE` (here `\s*` / `\s+` are greedy and may
cross newlines; `.*` runs to the end of a line). -/

/-- The negative lookbehind `(?<!\\)` at position `i`. -/
def notEsc (cs : List Char) (i : Nat) : Bool :=
  i == 0 || !(cs.get? (i - 1) == some '\\')

/-- End position of the shortest inline-math match starting at `i`: the least
`j > i` whose character is an unescaped `'$'` with no newline strictly between
`i` and `j` (the lazy `.*?` without `DOTALL`). -/
def inlineEndAt (cs : List Char) (i : Nat) : Option Nat :=
  (List.range cs.length).find? (fun j =>
    decide (i < j) && (cs.get? j == some '$') && notEsc cs j &&
      (List.range j).all (fun k => decide (k ≤ i) || !(cs.get? k == some '\n')))

/-- Resume position after the leftmost inline-math match starting at or after
`pos`, if any: the start must be an unescaped `'$'` admitting an end. -/
def inlineNext (cs : List Char) (pos : Nat) : Option Nat :=
  match (List.range cs.length).find? (fun i =>
      decide (pos ≤ i) && (cs.get? i == some '$') && notEsc cs i &&
        (inlineEndAt cs i).isSome) with
  | none => none
  | some i =>
    match inlineEndAt cs i with
    | none => none
    | some j => some (j + 1)

/-- End position of the shortest display-math match starting at `i`: the least
`j ≥ i + 2` where an unescaped `"$$"` begins (`DOTALL`: any characters in
between). -/
def displayEndAt (cs : List Char) (i : Nat) : Option Nat :=
  (List.range cs.length).find? (fun j =>
    decide (i + 2 ≤ j) && (cs.get? j == some '$') && (cs.get? (j + 1) == some '$') &&
      notEsc cs j)

/-- Resume position after the leftmost display-math match starting at or after
`pos`, if any. -/
def displayNext (cs : List Char) (pos : Nat) : Option Nat :=
  match (List.range cs.length).find? (fun i =>
      decide (pos ≤ i) && (cs.get? i == some '$') && (cs.get? (i + 1) == some '$') &&
        notEsc cs i && (displayEndAt cs i).isSome) with
  | none => none
  | some i =>
    match displayEndAt cs i with
    | none => none
    | some j => some (j + 2)

/-- The `re.findall` scan loop: count non-overlapping matches left to right,
resuming at each match end.  Every match here is at least one character long,
so `fuel = cs.length + 1` always suffices. -/
def findallCount (next : Nat → Option Nat) : Nat → Nat → Nat
  | 0, _ => 0
  | fuel + 1, pos =>
    match next pos with
    | none => 0
    | some pos2 => 1 + findallCount next fuel pos2

/-- `len(re.findall(r'(?<!\\)\$.*?(?<!\\)\$', text))`. -/
def inline_eq_count (cs : List Char) : Nat :=
  findallCount (inlineNext cs) (cs.length + 1) 0

/-- `len(re.findall(r'(?<!\\)\$\$.*?(?<!\\)\$\$', text, re.DOTALL))`. -/
def display_eq_count (cs : List Char) : Nat :=
  findallCount (displayNext cs) (cs.length + 1) 0

/-- Python `len(text.split())`: number of maximal runs of non-whitespace. -/
def pyWordCount (cs : List Char) : Nat :=
  (cs.foldl (fun st c =>
    if pyWs c then (st.1, false)
    else if st.2 then st else (st.1 + 1, true)) ((0 : Nat), false)).1

/-- First position at or after `i` whose character fails `p` (or the end). -/
def scanWhile (p : Char → Bool) (cs : List Char) (i : Nat) : Nat :=
  i + ((cs.drop i).takeWhile p).length

/-- The `^` anchor under `re.MULTILINE`. -/
def anchorAt (cs : List Char) (i : Nat) : Bool :=
  i == 0 || cs.get? (i - 1) == some '\n'

/-- Match of `\s*#{1,6}\s+.*` at an anchor position `i`, returning the end of
the match: skip whitespace greedily, require a run of one to six `'#'` (a run
of seven or more fails), require at least one following whitespace character,
then consume whitespace greedily and the rest of that line. -/
def headerMatchAt (cs : List Char) (i : Nat) : Option Nat :=
  let p := scanWhile pyWs cs i
  let r := scanWhile (fun c => c == '#') cs p - p
  if 1 ≤ r ∧ r ≤ 6 ∧ (cs.get? (p + r)).any pyWs then
    some (scanWhile (fun c => !(c == '\n')) cs (scanWhile pyWs cs (p + r)))
  else none

/-- Match of `\s*\d+\.\s+.*` at an anchor position `i`, returning its end. -/
def numberedMatchAt (cs : List Char) (i : Nat) : Option Nat :=
  let p := scanWhile pyWs cs i
  let d := scanWhile Char.isDigit cs p - p
  if 1 ≤ d ∧ cs.get? (p + d) = some '.' ∧ (cs.get? (p + d + 1)).any pyWs then
    some (scanWhile (fun c => !(c == '\n')) cs (scanWhile pyWs cs (p + d + 1)))
  else none

/-- Resume position after the leftmost anchored match at or after `pos`. -/
def multilineNext (matchAt : List Char → Nat → Option Nat) (cs : List Char)
    (pos : Nat) : Option Nat :=
  match (List.range cs.length).find? (fun i =>
      decide (pos ≤ i) && anchorAt cs i && (matchAt cs i).isSome) with
  | none => none
  | some i => matchAt cs i

/-- The dictionary returned by `calculate_metrics`. -/
structure MetricsReport where
  char_count : Nat
  word_count : Nat
  estimated_equation_count : Nat
  estimated_section_count : Nat
  deriving DecidableEq

/-- `calculate_metrics` from `src/evaluation.py` (the
`isinstance(text_content, str)` error branch is subsumed by typing). -/
def calculate_metrics (text_content : String) : MetricsReport :=
  { char_count := text_content.data.length
    word_count := pyWordCount text_content.data
    estimated_equation_count :=
      inline_eq_count text_content.data + display_eq_count text_content.data
    estimated_section_count :=
      findallCount (multilineNext headerMatchAt text_content.data)
          (text_content.data.length + 1) 0
        + findallCount (multilineNext numberedMatchAt text_content.data)
            (text_content.data.length + 1) 0 }

/-- **C3 counterexample**: on `"$$x$$"` the inline pattern matches twice (the
two degenerate spans `"$$"`) and the display pattern once, so
`estimated_equation_count` is `3`, not `1`: a display span is in fact also
counted as inline spans. -/
theorem display_math_double_counted :
    (calculate_metrics "$$x$$").estimated_equation_count = 3
    ∧ (3 : Nat) ≠ 1 := by
  refine ⟨by decide, by decide⟩

/-- **C3 amended** (`compute("$E=mc^2$")` yields
`estimated_equation_count = 1`; `compute("$$x$$")` yields
`estimated_equation_count = 3` — two empty inline matches plus one display
match). -/
theorem equation_count_values :
    (calculate_metrics "$E=mc^2$").estimated_equation_count = 1
    ∧ (calculate_metrics "$$x$$").estimated_equation_count = 3 := by
  refine ⟨by decide, by decide⟩

/-! ## `app.py` — primary-text selection points

Python's `d.get(k, default)` returns the stored value whenever the key is
present (our `Option.getD`), falling back otherwise. -/

/-- The spec's fixed precedence for the primary textual payload:
markdown over text over structured_text (`""` when none is present).
Stated from the spec's words, to compare the four code sites against. -/
def primary_text_precedence (d : ExtractionResult) : String :=
  d.markdown.getD (d.text.getD (d.structured_text.getD ""))

/-- The blob handed to `calculate_metrics` in `display_parser_output`
(`app.py:273`): `data.get('markdown', data.get('text', data.get('structured_text', '')))`. -/
def primary_text_metrics (d : ExtractionResult) : String :=
  d.markdown.getD (d.text.getD (d.structured_text.getD ""))

/-- The blob handed to the chunking previewer (`app.py:337`). -/
def primary_text_chunking (d : ExtractionResult) : String :=
  d.markdown.getD (d.text.getD (d.structured_text.getD ""))

/-- The blob used on each side of the diff view (`app.py:307-308`):
`results_data[name].get('markdown', results_data[name].get('text', ''))` —
note the missing `structured_text` fallback. -/
def primary_text_diff (d : ExtractionResult) : String :=
  d.markdown.getD (d.text.getD "")

/-- The blob used for DOCX export (`app.py:433`):
`data_to_export.get('markdown', data_to_export.get('text', ''))` — again no
`structured_text` fallback. -/
def primary_text_docx (d : ExtractionResult) : String :=
  d.markdown.getD (d.text.getD "")

/-- **C6 counterexample**: on a GROBID-style result that only carries
`structured_text`, the diff view and the DOCX export select `""` instead of
the `structured_text` payload demanded by the markdown > text >
structured_text precedence. -/
theorem diff_docx_precedence_claim_false :
    primary_text_diff { structured_text := some "<TEI/>" } = ""
    ∧ primary_text_docx { structured_text := some "<TEI/>" } = ""
    ∧ primary_text_precedence { structured_text := some "<TEI/>" } = "<TEI/>"
    ∧ primary_text_diff { structured_text := some "<TEI/>" }
        ≠ primary_text_precedence { structured_text := some "<TEI/>" } := by
  refine ⟨rfl, rfl, rfl, by decide⟩

/-- **C6 amended** (metrics computation and chunking preview select the
primary blob by the full precedence markdown > text > structured_text;
the diff view and the DOCX export use only markdown > text, so they agree
with the precedence exactly on results without a `structured_text` payload --
here `d` is arbitrary and `e` is any result without `structured_text`). -/
theorem primary_text_selection (d e : ExtractionResult)
    (h : e.structured_text = none) :
    (primary_text_metrics d = primary_text_precedence d
      ∧ primary_text_chunking d = primary_text_precedence d)
    ∧ (primary_text_diff e = primary_text_precedence e
      ∧ primary_text_docx e = primary_text_precedence e) := by
  refine ⟨⟨rfl, rfl⟩, ?_⟩
  unfold primary_text_diff primary_text_docx primary_text_precedence
  rw [h]
  exact ⟨rfl, rfl⟩

/-- Witness for C6 at a GROBID-style result (for the unconditional part) and
a PyMuPDF-style result (for the `structured_text = none` part). -/
theorem primary_text_selection_witness :
    ({ text := some "body", metadata := some [] } : ExtractionResult).structured_text = none
    ∧ ((primary_text_metrics { structured_text := some "<TEI/>" }
        = primary_text_precedence { structured_text := some "<TEI/>" }
      ∧ primary_text_chunking { structured_text := some "<TEI/>" }
        = primary_text_precedence { structured_text := some "<TEI/>" })
    ∧ (primary_text_diff { text := some "body", metadata := some [] }
          = primary_text_precedence { text := some "body", metadata := some [] }
        ∧ primary_text_docx { text := some "body", metadata := some [] }
          = primary_text_precedence { text := some "body", metadata := some [] })) :=
  ⟨rfl, primary_text_selection { structured_text := some "<TEI/>" }
    { text := some "body", metadata := some [] } rfl⟩

/-! ## `app.py` — the orchestration loop (`parse_button` handler) -/

/-- The keys of `PARSER_OPTIONS` (`app.py:50-56`). -/
def PARSER_OPTIONS_keys : List String :=
  ["PyMuPDF", "pdfplumber", "OCR (Tesseract)", "Nougat", "GROBID"]

/-- The sidebar configuration relevant to one orchestration run. -/
structure RunConfig where
  pdf_path : String
  page_range : Option (Int × Int)
  ocr_lang : String
  ocr_dpi : Nat
  grobid_url : String
  nougat_timeout : Nat
  deriving DecidableEq

/-- The keyword arguments handed to one parser call.  For `page_range`, the
outer `none` means the key was deleted from the bag (`app.py:200`, GROBID),
`some pr` that the key is present with value `pr` (itself `None` when the user
asked for all pages).  `has_progress_callback` records chaining of
`_progress_callback` (Nougat). -/
structure ParamBag where
  pdf_path : String
  page_range : Option (Option (Int × Int)) := none
  lang : Option String := none
  dpi : Option Nat := none
  grobid_url : Option String := none
  timeout : Option Nat := none
  has_progress_callback : Bool := false
  deriving DecidableEq

/-- Parameter construction of `app.py:191-203`: the common bag (path and page
range) plus the backend-specific additions. -/
def buildParams (cfg : RunConfig) (name : String) : ParamBag :=
  let base : ParamBag := { pdf_path := cfg.pdf_path, page_range := some cfg.page_range }
  if name = "OCR (Tesseract)" then
    { base with lang := some cfg.ocr_lang, dpi := some cfg.ocr_dpi }
  else if name = "GROBID" then
    { base with grobid_url := some cfg.grobid_url, page_range := none }
  else if name = "Nougat" then
    { base with timeout := some cfg.nougat_timeout, has_progress_callback := true }
  else base

/-- The parameters of the fallback call `parse_ocr(**ocr_params)`
(`app.py:214-217`): the common bag plus the user's OCR language and DPI. -/
def fallbackParams (cfg : RunConfig) : ParamBag :=
  { pdf_path := cfg.pdf_path
    page_range := some cfg.page_range
    lang := some cfg.ocr_lang
    dpi := some cfg.ocr_dpi }

/-- Python truthiness of `current_results[name].get('error')`. -/
def truthyError (r : ExtractionResult) : Bool :=
  match r.error with
  | none => false
  | some s => !(s == "")

/-- `"OCR (Tesseract)" in PARSER_OPTIONS` (`app.py:212`) — statically true. -/
def ocrRegistered : Bool := PARSER_OPTIONS_keys.contains "OCR (Tesseract)"

/-- Assignment `current_results[key] = value` on a Python dict, which keeps
insertion order: replace in place when the key exists, else append. -/
def insertR (k : String) (v : ExtractionResult) :
    List (String × ExtractionResult) → List (String × ExtractionResult)
  | [] => [(k, v)]
  | (k1, v1) :: rest => if k1 = k then (k, v) :: rest else (k1, v1) :: insertR k v rest

/-- `{'error': f"Failed to execute parser '{name}': {e}"}` (`app.py:221`). -/
def failedRes (name e : String) : ExtractionResult :=
  { error := some ("Failed to execute parser '" ++ name ++ "': " ++ e) }

/-- One iteration of the `for parser_name in selected_parser_names` loop
(`app.py:189-221`).  `invoke name params` is the outcome of calling the
parser registered under `name` with keyword arguments `params`: `.ok r` when
it returns the dictionary `r`, `.error e` when it raises an exception whose
rendering is `e`.  The fallback call is `parse_ocr`, the function registered
under `"OCR (Tesseract)"`.  If the fallback call itself raises, the `except`
clause overwrites the `"Nougat"` entry (its `parser_name` is still
`"Nougat"`) and no fallback entry appears. -/
def backendStep (cfg : RunConfig)
    (invoke : String → ParamBag → Except String ExtractionResult)
    (acc : List (String × ExtractionResult)) (name : String) :
    List (String × ExtractionResult) :=
  match invoke name (buildParams cfg name) with
  | .error e => insertR name (failedRes name e) acc
  | .ok r =>
    let acc1 := insertR name r acc
    if name = "Nougat" ∧ truthyError r ∧ ocrRegistered then
      match invoke "OCR (Tesseract)" (fallbackParams cfg) with
      | .ok r2 => insertR "OCR Fallback" r2 acc1
      | .error e => insertR name (failedRes name e) acc1
    else acc1

/-- The whole loop, building `current_results` from the empty dict. -/
def runBackends (cfg : RunConfig)
    (invoke : String → ParamBag → Except String ExtractionResult)
    (selected : List String) : List (String × ExtractionResult) :=
  selected.foldl (backendStep cfg invoke) []

/-- The entry the loop leaves under a selected backend's own key. -/
def expectedEntry (cfg : RunConfig)
    (invoke : String → ParamBag → Except String ExtractionResult)
    (name : String) : ExtractionResult :=
  match invoke name (buildParams cfg name) with
  | .error e => failedRes name e
  | .ok r =>
    if name = "Nougat" ∧ truthyError r ∧ ocrRegistered then
      match invoke "OCR (Tesseract)" (fallbackParams cfg) with
      | .ok _ => r
      | .error e => failedRes name e
    else r

theorem lookup_insertR_self (k : String) (v : ExtractionResult)
    (l : List (String × ExtractionResult)) :
    List.lookup k (insertR k v l) = some v := by
  induction l with
  | nil => simp [insertR, List.lookup]
  | cons p rest ih =>
    obtain ⟨k1, v1⟩ := p
    unfold insertR
    by_cases h : k1 = k
    · rw [if_pos h]
      simp [List.lookup]
    · rw [if_neg h]
      have : (k == k1) = false := by
        simp only [beq_eq_false_iff_ne, ne_eq]
        exact fun hc => h hc.symm
      simp [List.lookup, this, ih]

theorem lookup_insertR_other {k k1 : String} (v : ExtractionResult)
    (l : List (String × ExtractionResult)) (h : k ≠ k1) :
    List.lookup k (insertR k1 v l) = List.lookup k l := by
  induction l with
  | nil =>
    simp [insertR, List.lookup, beq_eq_false_iff_ne.mpr h]
  | cons p rest ih =>
    obtain ⟨k2, v2⟩ := p
    unfold insertR
    by_cases h2 : k2 = k1
    · rw [if_pos h2, h2]
      simp [List.lookup, beq_eq_false_iff_ne.mpr h]
    · rw [if_neg h2]
      by_cases h3 : k = k2
      · simp [List.lookup, h3]
      · simp [List.lookup, beq_eq_false_iff_ne.mpr h3, ih]

theorem lookup_backendStep_other (cfg : RunConfig)
    (invoke : String → ParamBag → Except String ExtractionResult)
    (acc : List (String × ExtractionResult)) (name k : String)
    (hk1 : k ≠ name) (hk2 : name = "Nougat" → k ≠ "OCR Fallback") :
    List.lookup k (backendStep cfg invoke acc name) = List.lookup k acc := by
  unfold backendStep
  cases hI : invoke name (buildParams cfg name) with
  | error e => exact lookup_insertR_other _ _ hk1
  | ok r =>
    dsimp only
    split
    · rename_i hcond
      have hn : name = "Nougat" := hcond.1
      cases hF : invoke "OCR (Tesseract)" (fallbackParams cfg) with
      | ok r2 =>
        rw [lookup_insertR_other _ _ (hk2 hn), lookup_insertR_other _ _ hk1]
      | error e =>
        rw [lookup_insertR_other _ _ hk1, lookup_insertR_other _ _ hk1]
    · exact lookup_insertR_other _ _ hk1

theorem lookup_runBackends_aux (cfg : RunConfig)
    (invoke : String → ParamBag → Except String ExtractionResult)
    (rest : List String) (acc : List (String × ExtractionResult)) (k : String)
    (h : ∀ n ∈ rest, k ≠ n ∧ (n = "Nougat" → k ≠ "OCR Fallback")) :
    List.lookup k (rest.foldl (backendStep cfg invoke) acc) = List.lookup k acc := by
  induction rest generalizing acc with
  | nil => rfl
  | cons hd tl ih =>
    rw [List.foldl_cons, ih _ (fun n hn => h n (List.mem_cons_of_mem hd hn))]
    exact lookup_backendStep_other cfg invoke acc hd k
      (h hd (List.mem_cons_self hd tl)).1 (h hd (List.mem_cons_self hd tl)).2

theorem lookup_backendStep_self (cfg : RunConfig)
    (invoke : String → ParamBag → Except String ExtractionResult)
    (acc : List (String × ExtractionResult)) (name : String)
    (hOF : name ≠ "OCR Fallback") :
    List.lookup name (backendStep cfg invoke acc name)
      = some (expectedEntry cfg invoke name) := by
  unfold backendStep expectedEntry
  cases hI : invoke name (buildParams cfg name) with
  | error e => exact lookup_insertR_self _ _ _
  | ok r =>
    dsimp only
    split
    · cases hF : invoke "OCR (Tesseract)" (fallbackParams cfg) with
      | ok r2 =>
        rw [lookup_insertR_other _ _ hOF]
        exact lookup_insertR_self _ _ _
      | error e => exact lookup_insertR_self _ _ _
    · exact lookup_insertR_self _ _ _

theorem lookup_foldl_self (cfg : RunConfig)
    (invoke : String → ParamBag → Except String ExtractionResult)
    (selected : List String) (name : String) :
    ∀ acc : List (String × ExtractionResult), name ∈ selected → selected.Nodup →
      (∀ n ∈ selected, n ≠ "OCR Fallback") →
      List.lookup name (selected.foldl (backendStep cfg invoke) acc)
        = some (expectedEntry cfg invoke name) := by
  induction selected with
  | nil => intro acc hmem _ _; cases hmem
  | cons hd tl ih =>
    intro acc hmem hnd hOF
    rw [List.foldl_cons]
    rcases List.mem_cons.mp hmem with rfl | htl
    · have hnotin : name ∉ tl := (List.nodup_cons.mp hnd).1
      rw [lookup_runBackends_aux cfg invoke tl _ name
        (fun n hn => ⟨fun hc => hnotin (hc ▸ hn), fun _ => hOF name hmem⟩)]
      exact lookup_backendStep_self cfg invoke acc name (hOF name hmem)
    · exact ih _ htl (List.nodup_cons.mp hnd).2
        (fun n hn => hOF n (List.mem_cons_of_mem hd hn))

theorem lookup_foldl_fallback (cfg : RunConfig)
    (invoke : String → ParamBag → Except String ExtractionResult)
    (selected : List String) (rN r2 : ExtractionResult)
    (hN : invoke "Nougat" (buildParams cfg "Nougat") = .ok rN)
    (htr : truthyError rN = true)
    (hF : invoke "OCR (Tesseract)" (fallbackParams cfg) = .ok r2) :
    ∀ acc : List (String × ExtractionResult), "Nougat" ∈ selected → selected.Nodup →
      (∀ n ∈ selected, n ≠ "OCR Fallback") →
      List.lookup "OCR Fallback" (selected.foldl (backendStep cfg invoke) acc)
        = some r2 := by
  induction selected with
  | nil => intro acc hmem _ _; cases hmem
  | cons hd tl ih =>
    intro acc hmem hnd hOF
    rw [List.foldl_cons]
    rcases List.mem_cons.mp hmem with rfl | htl
    · have hnotin : "Nougat" ∉ tl := (List.nodup_cons.mp hnd).1
      rw [lookup_runBackends_aux cfg invoke tl _ "OCR Fallback"
        (fun n hn => ⟨fun hc => hOF n (List.mem_cons_of_mem _ hn) hc.symm,
          fun hn2 => absurd (hn2 ▸ hn) hnotin⟩)]
      unfold backendStep
      rw [hN]
      dsimp only
      rw [if_pos ⟨rfl, htr, by decide⟩, hF]
      exact lookup_insertR_self _ _ _
    · exact ih _ htl (List.nodup_cons.mp hnd).2
        (fun n hn => hOF n (List.mem_cons_of_mem hd hn))

/-- **C4** (whenever the Nougat result carries a non-empty `error` and the
OCR extractor is registered, the run's ResultSet keeps the failed Nougat
result under its own key and holds a second entry under the distinct
synthetic key `"OCR Fallback"`, produced by invoking the OCR parser with the
same document path and page range plus the OCR language/DPI settings; the
fallback entry has no error when OCR itself succeeds). -/
theorem nougat_ocr_fallback (cfg : RunConfig)
    (invoke : String → ParamBag → Except String ExtractionResult)
    (selected : List String) (rN r2 : ExtractionResult) (msg : String)
    (hsub : ∀ n ∈ selected, n ∈ PARSER_OPTIONS_keys)
    (hnd : selected.Nodup)
    (hmem : "Nougat" ∈ selected)
    (hN : invoke "Nougat" (buildParams cfg "Nougat") = .ok rN)
    (herr : rN.error = some msg) (hmsg : msg ≠ "")
    (hreg : ocrRegistered = true)
    (hF : invoke "OCR (Tesseract)" (fallbackParams cfg) = .ok r2) :
    List.lookup "Nougat" (runBackends cfg invoke selected) = some rN
    ∧ List.lookup "OCR Fallback" (runBackends cfg invoke selected) = some r2
    ∧ fallbackParams cfg
        = (⟨cfg.pdf_path, some cfg.page_range, some cfg.ocr_lang, some cfg.ocr_dpi,
            none, none, false⟩ : ParamBag)
    ∧ (r2.error = none →
        ∃ rf, List.lookup "OCR Fallback" (runBackends cfg invoke selected) = some rf
          ∧ rf.error = none) := by
  have hOF : ∀ n ∈ selected, n ≠ "OCR Fallback" := by
    intro n hn hc
    have hk := hsub n hn
    rw [hc] at hk
    exact absurd hk (by decide)
  have htr : truthyError rN = true := by
    simp only [truthyError, herr]
    exact bne_iff_ne.mpr hmsg
  have hfb : List.lookup "OCR Fallback" (runBackends cfg invoke selected) = some r2 :=
    lookup_foldl_fallback cfg invoke selected rN r2 hN htr hF [] hmem hnd hOF
  refine ⟨?_, hfb, rfl, fun h2 => ⟨r2, hfb, h2⟩⟩
  unfold runBackends
  rw [lookup_foldl_self cfg invoke selected "Nougat" [] hmem hnd hOF]
  unfold expectedEntry
  rw [hN]
  dsimp only
  rw [if_pos ⟨rfl, htr, hreg⟩, hF]

/-- Witness for C4: a single-backend run selecting Nougat, whose parser
fails, with a succeeding OCR parser. -/
theorem nougat_ocr_fallback_witness :
    ((∀ n ∈ ["Nougat"], n ∈ PARSER_OPTIONS_keys)
      ∧ (["Nougat"] : List String).Nodup
      ∧ "Nougat" ∈ ["Nougat"]
      ∧ (fun name _ => if name = "Nougat"
            then (Except.ok { markdown := some "", error := some "Nougat Error: boom" }
              : Except String ExtractionResult)
            else Except.ok { text := some "recovered" })
          "Nougat" (buildParams ⟨"PDF/x.pdf", none, "eng", 300, "http://localhost:8070", 1800⟩ "Nougat")
          = Except.ok { markdown := some "", error := some "Nougat Error: boom" }
      ∧ ({ markdown := some "", error := some "Nougat Error: boom" }
          : ExtractionResult).error = some "Nougat Error: boom"
      ∧ "Nougat Error: boom" ≠ ""
      ∧ ocrRegistered = true
      ∧ (fun name _ => if name = "Nougat"
            then (Except.ok { markdown := some "", error := some "Nougat Error: boom" }
              : Except String ExtractionResult)
            else Except.ok { text := some "recovered" })
          "OCR (Tesseract)" (fallbackParams ⟨"PDF/x.pdf", none, "eng", 300, "http://localhost:8070", 1800⟩)
          = Except.ok { text := some "recovered" })
    ∧ (List.lookup "Nougat" (runBackends ⟨"PDF/x.pdf", none, "eng", 300, "http://localhost:8070", 1800⟩
          (fun name _ => if name = "Nougat"
            then (Except.ok { markdown := some "", error := some "Nougat Error: boom" }
              : Except String ExtractionResult)
            else Except.ok { text := some "recovered" }) ["Nougat"])
          = some { markdown := some "", error := some "Nougat Error: boom" }
      ∧ List.lookup "OCR Fallback" (runBackends ⟨"PDF/x.pdf", none, "eng", 300, "http://localhost:8070", 1800⟩
          (fun name _ => if name = "Nougat"
            then (Except.ok { markdown := some "", error := some "Nougat Error: boom" }
              : Except String ExtractionResult)
            else Except.ok { text := some "recovered" }) ["Nougat"])
          = some { text := some "recovered" }
      ∧ fallbackParams ⟨"PDF/x.pdf", none, "eng", 300, "http://localhost:8070", 1800⟩
          = (⟨"PDF/x.pdf", some none, some "eng", some 300, none, none, false⟩ : ParamBag)
      ∧ (({ text := some "recovered" } : ExtractionResult).error = none →
          ∃ rf, List.lookup "OCR Fallback" (runBackends ⟨"PDF/x.pdf", none, "eng", 300, "http://localhost:8070", 1800⟩
            (fun name _ => if name = "Nougat"
              then (Except.ok { markdown := some "", error := some "Nougat Error: boom" }
                : Except String ExtractionResult)
              else Except.ok { text := some "recovered" }) ["Nougat"])
            = some rf ∧ rf.error = none)) :=
  ⟨⟨by decide, by decide, by decide, rfl, rfl, by decide, by decide, rfl⟩,
    nougat_ocr_fallback ⟨"PDF/x.pdf", none, "eng", 300, "http://localhost:8070", 1800⟩
      (fun name _ => if name = "Nougat"
        then (Except.ok { markdown := some "", error := some "Nougat Error: boom" }
          : Except String ExtractionResult)
        else Except.ok { text := some "recovered" })
      ["Nougat"] { markdown := some "", error := some "Nougat Error: boom" }
      { text := some "recovered" } "Nougat Error: boom"
      (by decide) (by decide) (by decide) rfl rfl (by decide) (by decide) rfl⟩

/-- **C5** (one backend's unexpected failure never prevents collection of the
other selected backend's result: if the call for `A` raises and the call for
`B` returns a result with no error, the ResultSet holds an entry for `A`
whose `error` references the backend name and the entry for `B` intact). -/
theorem backend_failure_isolated (cfg : RunConfig)
    (invoke : String → ParamBag → Except String ExtractionResult)
    (selected : List String) (A B e : String) (rB : ExtractionResult)
    (hsub : ∀ n ∈ selected, n ∈ PARSER_OPTIONS_keys)
    (hnd : selected.Nodup)
    (hA : A ∈ selected) (hB : B ∈ selected) (hAB : A ≠ B)
    (hAe : invoke A (buildParams cfg A) = .error e)
    (hBok : invoke B (buildParams cfg B) = .ok rB)
    (hBsucc : rB.error = none) :
    List.lookup A (runBackends cfg invoke selected) = some (failedRes A e)
    ∧ (failedRes A e).error
        = some ("Failed to execute parser '" ++ A ++ "': " ++ e)
    ∧ List.lookup B (runBackends cfg invoke selected) = some rB := by
  have hOF : ∀ n ∈ selected, n ≠ "OCR Fallback" := by
    intro n hn hc
    have hk := hsub n hn
    rw [hc] at hk
    exact absurd hk (by decide)
  unfold runBackends
  refine ⟨?_, rfl, ?_⟩
  · rw [lookup_foldl_self cfg invoke selected A [] hA hnd hOF]
    unfold expectedEntry
    rw [hAe]
  · rw [lookup_foldl_self cfg invoke selected B [] hB hnd hOF]
    unfold expectedEntry
    rw [hBok]
    dsimp only
    rw [if_neg]
    intro hc
    have htr := hc.2.1
    simp only [truthyError, hBsucc] at htr
    cases htr

/-- Witness for C5: PyMuPDF raising, pdfplumber succeeding. -/
theorem backend_failure_isolated_witness :
    ((∀ n ∈ ["PyMuPDF", "pdfplumber"], n ∈ PARSER_OPTIONS_keys)
      ∧ (["PyMuPDF", "pdfplumber"] : List String).Nodup
      ∧ "PyMuPDF" ∈ ["PyMuPDF", "pdfplumber"]
      ∧ "pdfplumber" ∈ ["PyMuPDF", "pdfplumber"]
      ∧ "PyMuPDF" ≠ "pdfplumber"
      ∧ (fun name _ => if name = "PyMuPDF"
            then (Except.error "boom" : Except String ExtractionResult)
            else Except.ok { text := some "t", tables := some [] })
          "PyMuPDF" (buildParams ⟨"PDF/x.pdf", none, "eng", 300, "http://localhost:8070", 1800⟩ "PyMuPDF")
          = Except.error "boom"
      ∧ (fun name _ => if name = "PyMuPDF"
            then (Except.error "boom" : Except String ExtractionResult)
            else Except.ok { text := some "t", tables := some [] })
          "pdfplumber" (buildParams ⟨"PDF/x.pdf", none, "eng", 300, "http://localhost:8070", 1800⟩ "pdfplumber")
          = Except.ok { text := some "t", tables := some [] }
      ∧ ({ text := some "t", tables := some [] } : ExtractionResult).error = none)
    ∧ (List.lookup "PyMuPDF" (runBackends ⟨"PDF/x.pdf", none, "eng", 300, "http://localhost:8070", 1800⟩
          (fun name _ => if name = "PyMuPDF"
            then (Except.error "boom" : Except String ExtractionResult)
            else Except.ok { text := some "t", tables := some [] })
          ["PyMuPDF", "pdfplumber"])
          = some (failedRes "PyMuPDF" "boom")
      ∧ (failedRes "PyMuPDF" "boom").error
          = some ("Failed to execute parser '" ++ "PyMuPDF" ++ "': " ++ "boom")
      ∧ List.lookup "pdfplumber" (runBackends ⟨"PDF/x.pdf", none, "eng", 300, "http://localhost:8070", 1800⟩
          (fun name _ => if name = "PyMuPDF"
            then (Except.error "boom" : Except String ExtractionResult)
            else Except.ok { text := some "t", tables := some [] })
          ["PyMuPDF", "pdfplumber"])
          = some { text := some "t", tables := some [] }) :=
  ⟨⟨by decide, by decide, by decide, by decide, by decide, rfl, rfl, rfl⟩,
    backend_failure_isolated ⟨"PDF/x.pdf", none, "eng", 300, "http://localhost:8070", 1800⟩
      (fun name _ => if name = "PyMuPDF"
        then (Except.error "boom" : Except String ExtractionResult)
        else Except.ok { text := some "t", tables := some [] })
      ["PyMuPDF", "pdfplumber"] "PyMuPDF" "pdfplumber" "boom"
      { text := some "t", tables := some [] }
      (by decide) (by decide) (by decide) (by decide) (by decide) rfl rfl rfl⟩

/-! ## `src/utils.py` — `export_json` and the JSON round trip

`export_json` is `json.dumps(data, indent=4, ensure_ascii=False)` encoded as
UTF-8 (encoding/decoding is lossless on code points, so byte blobs are
modelled by their decoded character sequences); the round-trip claim parses
those bytes back with `json.loads`.  The JSON-serializable inputs reachable
here are built from `None`, booleans, integers, strings, lists and dicts
(floats stay outside the model: their formatting and parsing is
floating-point behaviour).  Python dict keys need not be strings: `dumps`
coerces an `int` key `n` to the string `str(n)`, which is what breaks the
round trip.  Dicts of the running program never hold duplicate keys, which
the well-formedness predicate `jwf` mirrors. -/

/-- A JSON-serializable dict key: either a string or (coerced on dump) an
integer. -/
inductive JKey : Type where
  | kstr : List Char → JKey
  | kint : Int → JKey
  deriving DecidableEq

mutual
/-- A JSON-serializable Python value (floats excluded, see above). -/
inductive JVal : Type where
  | jnull : JVal
  | jbool : Bool → JVal
  | jint : Int → JVal
  | jstr : List Char → JVal
  | jarr : JArr → JVal
  | jobj : JObj → JVal
  deriving DecidableEq
/-- A Python list of JSON-serializable values. -/
inductive JArr : Type where
  | anil : JArr
  | acons : JVal → JArr → JArr
  deriving DecidableEq
/-- A Python dict with JSON-serializable values, in insertion order. -/
inductive JObj : Type where
  | onil : JObj
  | ocons : JKey → JVal → JObj → JObj
  deriving DecidableEq
end

/-- Decimal digits of `n`, most significant first (`str` on a nonnegative
int), via fuel recursion. -/
def natDigitsAux : Nat → Nat → List Char
  | 0, _ => []
  | fuel + 1, n =>
    if n < 10 then [Char.ofNat (48 + n)]
    else natDigitsAux fuel (n / 10) ++ [Char.ofNat (48 + n % 10)]

/-- `str(n)` for a nonnegative int. -/
def natChars (n : Nat) : List Char := natDigitsAux (n + 1) n

/-- `str(n)` for an int. -/
def intChars (n : Int) : List Char :=
  if n < 0 then '-' :: natChars (-n).toNat else natChars n.toNat

/-- Lowercase hexadecimal digit, as in Python's `'\\u%04x'`. -/
def hexDigitChar (n : Nat) : Char :=
  if n < 10 then Char.ofNat (48 + n) else Char.ofNat (87 + n)

/-- Escaping of one character by `json.dumps(..., ensure_ascii=False)`
(`py_encode_basestring`): backslash, quote and the short control escapes,
`\\u00xx` for the remaining control characters, everything else verbatim. -/
def escChar (c : Char) : List Char :=
  if c = '\\' then ['\\', '\\']
  else if c = '"' then ['\\', '"']
  else if c = Char.ofNat 8 then ['\\', 'b']
  else if c = Char.ofNat 12 then ['\\', 'f']
  else if c = '\n' then ['\\', 'n']
  else if c = '\r' then ['\\', 'r']
  else if c = '\t' then ['\\', 't']
  else if c.toNat < 32 then
    ['\\', 'u', '0', '0', hexDigitChar (c.toNat / 16), hexDigitChar (c.toNat % 16)]
  else [c]

/-- Escaping of a whole string (without the surrounding quotes). -/
def escList : List Char → List Char
  | [] => []
  | c :: cs => escChar c ++ escList cs

/-- The serialized form of a dict key: an int key is coerced to `str(n)`. -/
def keyChars : JKey → List Char
  | .kstr s => '"' :: (escList s ++ ['"'])
  | .kint n => '"' :: (intChars n ++ ['"'])

/-- `indent=4`: the indentation prefix at nesting depth `k`. -/
def jindent (k : Nat) : List Char := List.replicate (4 * k) ' '

mutual
/-- `json.dumps(v, indent=4, ensure_ascii=False)` at nesting depth `k`:
empty containers print as `[]` / the two-brace pair; non-empty containers
put every item on its own indented line, item separator `','` + newline, key
separator `": "`. -/
def jdump : JVal → Nat → List Char
  | .jnull, _ => ['n', 'u', 'l', 'l']
  | .jbool true, _ => ['t', 'r', 'u', 'e']
  | .jbool false, _ => ['f', 'a', 'l', 's', 'e']
  | .jint n, _ => intChars n
  | .jstr s, _ => '"' :: (escList s ++ ['"'])
  | .jarr .anil, _ => ['[', ']']
  | .jarr (.acons v t), k =>
    '[' :: '\n' :: (jindent (k + 1) ++ (jdump v (k + 1) ++ (jdumpArrTail t (k + 1)
      ++ '\n' :: (jindent k ++ [']']))))
  | .jobj .onil, _ => [Char.ofNat 123, Char.ofNat 125]
  | .jobj (.ocons key v t), k =>
    Char.ofNat 123 :: '\n' :: (jindent (k + 1) ++ (keyChars key
      ++ ':' :: ' ' :: (jdump v (k + 1) ++ (jdumpObjTail t (k + 1)
      ++ '\n' :: (jindent k ++ [Char.ofNat 125])))))
/-- The serialized items of a list after the first one. -/
def jdumpArrTail : JArr → Nat → List Char
  | .anil, _ => []
  | .acons v t, k => ',' :: '\n' :: (jindent k ++ (jdump v k ++ jdumpArrTail t k))
/-- The serialized members of a dict after the first one. -/
def jdumpObjTail : JObj → Nat → List Char
  | .onil, _ => []
  | .ocons key v t, k =>
    ',' :: '\n' :: (jindent k ++ (keyChars key ++ ':' :: ' ' :: (jdump v k
      ++ jdumpObjTail t k)))
end

mutual
/-- No dict (at any depth) has an `int` key or a duplicate key — the domain
actually reachable from Python dicts with string keys. -/
def jwf : JVal → Bool
  | .jnull => true
  | .jbool _ => true
  | .jint _ => true
  | .jstr _ => true
  | .jarr t => jwfArr t
  | .jobj o => jwfObj o
def jwfArr : JArr → Bool
  | .anil => true
  | .acons v t => jwf v && jwfArr t
def jwfObj : JObj → Bool
  | .onil => true
  | .ocons (.kstr s) v t => jwf v && jwfObj t && !(objHasKey t s)
  | .ocons (.kint _) _ _ => false
def objHasKey : JObj → List Char → Bool
  | .onil, _ => false
  | .ocons (.kstr s2) _ t, s => (s2 == s) || objHasKey t s
  | .ocons (.kint _) _ t, s => objHasKey t s
end

/-- The whitespace skipped between JSON tokens by `json.loads`. -/
def jsonWs (c : Char) : Bool :=
  c == ' ' || c == '\t' || c == '\n' || c == '\r'

/-- Skip inter-token whitespace. -/
def jskipWs : List Char → List Char
  | [] => []
  | c :: cs => if jsonWs c then jskipWs cs else c :: cs

/-- Numeric value of a decimal digit character. -/
def digitVal (c : Char) : Nat := c.toNat - 48

/-- Value of a hexadecimal digit character, if it is one. -/
def hexVal (c : Char) : Option Nat :=
  if '0' ≤ c ∧ c ≤ '9' then some (c.toNat - 48)
  else if 'a' ≤ c ∧ c ≤ 'f' then some (c.toNat - 87)
  else if 'A' ≤ c ∧ c ≤ 'F' then some (c.toNat - 55)
  else none

/-- The one-character string escapes accepted by `json.loads`. -/
def unescapeChar (e : Char) : Option Char :=
  if e = '"' then some '"'
  else if e = '\\' then some '\\'
  else if e = '/' then some '/'
  else if e = 'b' then some (Char.ofNat 8)
  else if e = 'f' then some (Char.ofNat 12)
  else if e = 'n' then some '\n'
  else if e = 'r' then some '\r'
  else if e = 't' then some '\t'
  else none

/-- `json.loads` string scanning, after the opening quote: literal characters
up to the closing quote, escapes via `unescapeChar` or `\\uXXXX`, raw control
characters rejected (`strict=True`).  Surrogate pairs only arise for escaped
astral characters, which `ensure_ascii=False` never produces; they are not
modelled. -/
def parseJStr : List Char → Option (List Char × List Char)
  | [] => none
  | c :: rest =>
    if c = '"' then some ([], rest)
    else if c = '\\' then
      match rest with
      | [] => none
      | e :: rest2 =>
        if e = 'u' then
          match rest2 with
          | a :: b :: c2 :: d :: rest3 =>
            match hexVal a, hexVal b, hexVal c2, hexVal d with
            | some va, some vb, some vc, some vd =>
              (parseJStr rest3).map (fun p =>
                (Char.ofNat (va * 4096 + vb * 256 + vc * 16 + vd) :: p.1, p.2))
            | _, _, _, _ => none
          | _ => none
        else
          match unescapeChar e with
          | none => none
          | some ch => (parseJStr rest2).map (fun p => (ch :: p.1, p.2))
    else if c.toNat < 32 then none
    else (parseJStr rest).map (fun p => (c :: p.1, p.2))

/-- Longest leading run of decimal digits. -/
def takeDigits : List Char → List Char × List Char
  | [] => ([], [])
  | c :: cs =>
    if c.isDigit then
      let p := takeDigits cs
      (c :: p.1, p.2)
    else ([], c :: cs)

/-- JSON unsigned-integer grammar (`0 | [1-9][0-9]*`): a number starting with
`'0'` is exactly `"0"`; otherwise the maximal digit run, read in base 10. -/
def parseNatNum : List Char → Option (Nat × List Char)
  | [] => none
  | c :: rest =>
    if c = '0' then some (0, rest)
    else if c.isDigit then
      some (((c :: (takeDigits rest).1).foldl (fun a d => a * 10 + digitVal d) 0),
        (takeDigits rest).2)
    else none

/-- Is the remainder free of a fraction/exponent continuation?  A `'.'`,
`'e'` or `'E'` next would make the number a float, which is outside the
model, so the parser declines it. -/
def numStop : List Char → Bool
  | [] => true
  | c :: _ => !(c = '.' || c = 'e' || c = 'E')

/-- JSON integer parsing: optional minus sign, then `parseNatNum`. -/
def parseIntNum : List Char → Option (Int × List Char)
  | [] => none
  | c :: rest =>
    if c = '-' then
      match parseNatNum rest with
      | some (m, rest2) => if numStop rest2 then some (-(m : Int), rest2) else none
      | none => none
    else
      match parseNatNum (c :: rest) with
      | some (m, rest2) => if numStop rest2 then some ((m : Int), rest2) else none
      | none => none

mutual
/-- Recursive-descent `json.loads` value parser (fuelled; each recursive call
consumes at least one character first, so any fuel beyond the input length
suffices). -/
def jparse : Nat → List Char → Option (JVal × List Char)
  | 0, _ => none
  | fuel + 1, cs =>
    match jskipWs cs with
    | [] => none
    | c :: rest =>
      if c = 'n' then
        match rest with
        | 'u' :: 'l' :: 'l' :: rest2 => some (.jnull, rest2)
        | _ => none
      else if c = 't' then
        match rest with
        | 'r' :: 'u' :: 'e' :: rest2 => some (.jbool true, rest2)
        | _ => none
      else if c = 'f' then
        match rest with
        | 'a' :: 'l' :: 's' :: 'e' :: rest2 => some (.jbool false, rest2)
        | _ => none
      else if c = '"' then
        (parseJStr rest).map (fun p => (.jstr p.1, p.2))
      else if c = '[' then
        jparseArr fuel (jskipWs rest)
      else if c = Char.ofNat 123 then
        jparseObj fuel (jskipWs rest)
      else
        (parseIntNum (c :: rest)).map (fun p => (.jint p.1, p.2))
/-- After `'['` (whitespace skipped): empty array or first item plus tail. -/
def jparseArr : Nat → List Char → Option (JVal × List Char)
  | 0, _ => none
  | fuel + 1, cs =>
    match cs with
    | [] => none
    | c :: rest =>
      if c = ']' then some (.jarr .anil, rest)
      else
        match jparse fuel (c :: rest) with
        | none => none
        | some (v, rest2) =>
          match jparseArrTail fuel (jskipWs rest2) with
          | none => none
          | some (t, rest3) => some (.jarr (.acons v t), rest3)
/-- After one array item (whitespace skipped): `']'` closes, `','` continues. -/
def jparseArrTail : Nat → List Char → Option (JArr × List Char)
  | 0, _ => none
  | fuel + 1, cs =>
    match cs with
    | [] => none
    | c :: rest =>
      if c = ']' then some (.anil, rest)
      else if c = ',' then
        match jparse fuel (jskipWs rest) with
        | none => none
        | some (v, rest2) =>
          match jparseArrTail fuel (jskipWs rest2) with
          | none => none
          | some (t, rest3) => some (.acons v t, rest3)
      else none
/-- After the opening brace (whitespace skipped): empty object or first
member plus tail.  Keys parse as strings, so a parsed key is always `kstr`. -/
def jparseObj : Nat → List Char → Option (JVal × List Char)
  | 0, _ => none
  | fuel + 1, cs =>
    match cs with
    | [] => none
    | c :: rest =>
      if c = Char.ofNat 125 then some (.jobj .onil, rest)
      else if c = '"' then
        (parseJStr rest).bind (fun kp =>
          match jskipWs kp.2 with
          | [] => none
          | c3 :: rest3 =>
            if c3 = ':' then
              (jparse fuel (jskipWs rest3)).bind (fun vp =>
                (jparseObjTail fuel (jskipWs vp.2)).map (fun tp =>
                  (JVal.jobj (JObj.ocons (JKey.kstr kp.1) vp.1 tp.1), tp.2)))
            else none)
      else none
/-- After one object member (whitespace skipped): closing brace or `','` and
another `"key": value`. -/
def jparseObjTail : Nat → List Char → Option (JObj × List Char)
  | 0, _ => none
  | fuel + 1, cs =>
    match cs with
    | [] => none
    | c :: rest =>
      if c = Char.ofNat 125 then some (.onil, rest)
      else if c = ',' then
        match jskipWs rest with
        | [] => none
        | c2 :: rest2 =>
          if c2 = '"' then
            (parseJStr rest2).bind (fun kp =>
              match jskipWs kp.2 with
              | [] => none
              | c3 :: rest3 =>
                if c3 = ':' then
                  (jparse fuel (jskipWs rest3)).bind (fun vp =>
                    (jparseObjTail fuel (jskipWs vp.2)).map (fun tp =>
                      (JObj.ocons (JKey.kstr kp.1) vp.1 tp.1, tp.2)))
                else none)
          else none
      else none
end

/-- `export_json` from `src/utils.py:52-62`: `None` (with a UI error) unless
the datum is a dict or list, else the pretty-printed JSON text. -/
def export_json (data : JVal) : Option (List Char) :=
  match data with
  | .jobj _ => some (jdump data 0)
  | .jarr _ => some (jdump data 0)
  | _ => none

/-- `json.loads` of a whole document: one value, then only trailing
whitespace. -/
def json_loads (cs : List Char) : Option JVal :=
  match jparse (cs.length + 1) cs with
  | some (v, rest) => if jskipWs rest = [] then some v else none
  | none => none

theorem jskipWs_sp (x : List Char) : jskipWs (' ' :: x) = jskipWs x := by
  simp [jskipWs, jsonWs]

theorem jskipWs_nl (x : List Char) : jskipWs ('\n' :: x) = jskipWs x := by
  simp [jskipWs, jsonWs]

theorem jskipWs_replicate_sp (m : Nat) (x : List Char) :
    jskipWs (List.replicate m ' ' ++ x) = jskipWs x := by
  induction m with
  | zero => rfl
  | succ m ih => rw [List.replicate_succ, List.cons_append, jskipWs_sp, ih]

theorem jskipWs_jindent (k : Nat) (x : List Char) :
    jskipWs (jindent k ++ x) = jskipWs x := jskipWs_replicate_sp _ x

theorem jskipWs_not_ws {c : Char} (x : List Char) (h : jsonWs c = false) :
    jskipWs (c :: x) = c :: x := by
  simp [jskipWs, h]

theorem jskipWs_colon (x : List Char) : jskipWs (':' :: x) = ':' :: x :=
  jskipWs_not_ws x (by decide)

theorem jskipWs_quote (x : List Char) : jskipWs ('"' :: x) = '"' :: x :=
  jskipWs_not_ws x (by decide)

theorem jskipWs_length (x : List Char) : (jskipWs x).length ≤ x.length := by
  induction x with
  | nil => exact Nat.le_refl 0
  | cons c cs ih =>
    by_cases h : jsonWs c
    · rw [jskipWs, if_pos h]
      exact Nat.le_succ_of_le ih
    · rw [jskipWs, if_neg h]

theorem natDigitsAux_fuel (n : Nat) : ∀ f1 f2 : Nat, n < f1 → n < f2 →
    natDigitsAux f1 n = natDigitsAux f2 n := by
  induction n using Nat.strongRecOn with
  | _ n ih =>
    intro f1 f2 h1 h2
    cases f1 with
    | zero => omega
    | succ f1 =>
      cases f2 with
      | zero => omega
      | succ f2 =>
        simp only [natDigitsAux]
        by_cases h : n < 10
        · rw [if_pos h, if_pos h]
        · rw [if_neg h, if_neg h, ih (n / 10) (by omega) f1 f2 (by omega) (by omega)]

theorem natChars_small {n : Nat} (h : n < 10) : natChars n = [Char.ofNat (48 + n)] := by
  simp only [natChars, natDigitsAux, if_pos h]

theorem natChars_big {n : Nat} (h : 10 ≤ n) :
    natChars n = natChars (n / 10) ++ [Char.ofNat (48 + n % 10)] := by
  show natDigitsAux (n + 1) n = _
  simp only [natDigitsAux]
  rw [if_neg (by omega), natDigitsAux_fuel (n / 10) n (n / 10 + 1) (by omega) (by omega)]
  rfl

theorem natChars_cons (n : Nat) :
    ∃ r tl, r < 10 ∧ (1 ≤ n → 1 ≤ r) ∧ natChars n = Char.ofNat (48 + r) :: tl := by
  induction n using Nat.strongRecOn with
  | _ n ih =>
    by_cases h : n < 10
    · exact ⟨n, [], h, fun h1 => h1, natChars_small h⟩
    · obtain ⟨r, tl, hr, hr1, htl⟩ := ih (n / 10) (by omega)
      exact ⟨r, tl ++ [Char.ofNat (48 + n % 10)], hr, fun _ => hr1 (by omega),
        by rw [natChars_big (by omega), htl, List.cons_append]⟩

theorem natChars_all_digits (n : Nat) : ∀ c ∈ natChars n, c.isDigit = true := by
  have hdig : ∀ r, r < 10 → (Char.ofNat (48 + r)).isDigit = true := by decide
  induction n using Nat.strongRecOn with
  | _ n ih =>
    by_cases h : n < 10
    · rw [natChars_small h]
      intro c hc
      rw [List.mem_singleton] at hc
      subst hc
      exact hdig n h
    · rw [natChars_big (by omega)]
      intro c hc
      rcases List.mem_append.mp hc with h1 | h2
      · exact ih (n / 10) (by omega) c h1
      · rw [List.mem_singleton] at h2
        subst h2
        exact hdig (n % 10) (by omega)

/-- `rest` does not begin with a digit. -/
def notDigitHead : List Char → Bool
  | [] => true
  | c :: _ => !c.isDigit

theorem takeDigits_append {ds rest : List Char} (hds : ∀ c ∈ ds, c.isDigit = true)
    (hrest : notDigitHead rest = true) :
    takeDigits (ds ++ rest) = (ds, rest) := by
  induction ds with
  | nil =>
    cases rest with
    | nil => rfl
    | cons c cs =>
      simp only [notDigitHead, Bool.not_eq_true'] at hrest
      simp [takeDigits, hrest]
  | cons d ds ih =>
    rw [List.cons_append, takeDigits]
    rw [if_pos (hds d (List.mem_cons_self _ _)), ih (fun c hc => hds c (List.mem_cons_of_mem _ hc))]

theorem digitVal_ofNat {m : Nat} (h : m < 10) : digitVal (Char.ofNat (48 + m)) = m := by
  have : ∀ m, m < 10 → digitVal (Char.ofNat (48 + m)) = m := by decide
  exact this m h

theorem foldl_natChars (n : Nat) :
    (natChars n).foldl (fun a d => a * 10 + digitVal d) 0 = n := by
  induction n using Nat.strongRecOn with
  | _ n ih =>
    by_cases h : n < 10
    · rw [natChars_small h]
      simpa using digitVal_ofNat h
    · rw [natChars_big (by omega), List.foldl_append, ih (n / 10) (by omega)]
      simp only [List.foldl_cons, List.foldl_nil]
      rw [digitVal_ofNat (show n % 10 < 10 by omega)]
      omega

theorem parseNatNum_natChars (n : Nat) (rest : List Char)
    (hrest : notDigitHead rest = true) :
    parseNatNum (natChars n ++ rest) = some (n, rest) := by
  by_cases h0 : n = 0
  · subst h0
    rw [natChars_small (by omega)]
    simp only [List.cons_append, List.nil_append, parseNatNum]
    rw [if_pos (by decide)]
  · obtain ⟨r, tl, hr, hr1, hchars⟩ := natChars_cons n
    have hrne : 1 ≤ r := hr1 (by omega)
    have hcne : Char.ofNat (48 + r) ≠ '0' := by
      have : ∀ r, r < 10 → 1 ≤ r → Char.ofNat (48 + r) ≠ '0' := by decide
      exact this r hr hrne
    have hcdig : (Char.ofNat (48 + r)).isDigit = true := by
      have : ∀ r, r < 10 → (Char.ofNat (48 + r)).isDigit = true := by decide
      exact this r hr
    have htl : ∀ c ∈ tl, c.isDigit = true := by
      intro c hc
      exact natChars_all_digits n c (by rw [hchars]; exact List.mem_cons_of_mem _ hc)
    rw [hchars, List.cons_append, parseNatNum]
    rw [if_neg hcne, if_pos hcdig, takeDigits_append htl hrest]
    have : (Char.ofNat (48 + r) :: tl) = natChars n := hchars.symm
    simp only [this]
    rw [foldl_natChars]

/-- After a value, the pretty-printer emits `','`, `'\n'`, or nothing. -/
def goodAfter : List Char → Bool
  | [] => true
  | c :: _ => c == ',' || c == '\n'

theorem goodAfter_notDigit {rest : List Char} (h : goodAfter rest = true) :
    notDigitHead rest = true := by
  cases rest with
  | nil => rfl
  | cons c cs =>
    simp only [goodAfter, Bool.or_eq_true, beq_iff_eq] at h
    rcases h with rfl | rfl <;> rfl

theorem goodAfter_numStop {rest : List Char} (h : goodAfter rest = true) :
    numStop rest = true := by
  cases rest with
  | nil => rfl
  | cons c cs =>
    simp only [goodAfter, Bool.or_eq_true, beq_iff_eq] at h
    rcases h with rfl | rfl <;> rfl

theorem parseIntNum_intChars (n : Int) (rest : List Char)
    (hrest : goodAfter rest = true) :
    parseIntNum (intChars n ++ rest) = some (n, rest) := by
  unfold intChars
  by_cases h : n < 0
  · rw [if_pos h, List.cons_append, parseIntNum, if_pos rfl,
      parseNatNum_natChars _ _ (goodAfter_notDigit hrest)]
    dsimp only
    rw [if_pos (goodAfter_numStop hrest)]
    have : -(((-n).toNat : Nat) : Int) = n := by omega
    rw [this]
  · rw [if_neg h]
    obtain ⟨r, tl, hr, _, hchars⟩ := natChars_cons n.toNat
    have hno : Char.ofNat (48 + r) ≠ '-' := by
      have : ∀ r, r < 10 → Char.ofNat (48 + r) ≠ '-' := by decide
      exact this r hr
    rw [hchars, List.cons_append, parseIntNum, if_neg hno, ← List.cons_append, ← hchars,
      parseNatNum_natChars _ _ (goodAfter_notDigit hrest)]
    dsimp only
    rw [if_pos (goodAfter_numStop hrest)]
    have : ((n.toNat : Nat) : Int) = n := by omega
    rw [this]

theorem hexVal_hexDigitChar {m : Nat} (h : m < 16) : hexVal (hexDigitChar m) = some m := by
  have : ∀ m, m < 16 → hexVal (hexDigitChar m) = some m := by decide
  exact this m h

theorem parseJStr_escList (s : List Char) : ∀ rest : List Char,
    parseJStr (escList s ++ ('"' :: rest)) = some (s, rest) := by
  induction s with
  | nil =>
    intro rest
    show parseJStr ('"' :: rest) = some ([], rest)
    rw [parseJStr.eq_def]
    simp
  | cons c cs ih =>
    intro rest
    show parseJStr ((escChar c ++ escList cs) ++ '"' :: rest) = _
    rw [List.append_assoc]
    unfold escChar
    by_cases h1 : c = '\\'
    · rw [if_pos h1]; subst h1
      rw [List.cons_append, List.cons_append, List.nil_append, parseJStr.eq_def]
      simp [unescapeChar, ih rest]
    rw [if_neg h1]
    by_cases h2 : c = '"'
    · rw [if_pos h2]; subst h2
      rw [List.cons_append, List.cons_append, List.nil_append, parseJStr.eq_def]
      simp [unescapeChar, ih rest]
    rw [if_neg h2]
    by_cases h3 : c = Char.ofNat 8
    · rw [if_pos h3]; subst h3
      rw [List.cons_append, List.cons_append, List.nil_append, parseJStr.eq_def]
      simp [unescapeChar, ih rest]
    rw [if_neg h3]
    by_cases h4 : c = Char.ofNat 12
    · rw [if_pos h4]; subst h4
      rw [List.cons_append, List.cons_append, List.nil_append, parseJStr.eq_def]
      simp [unescapeChar, ih rest]
    rw [if_neg h4]
    by_cases h5 : c = '\n'
    · rw [if_pos h5]; subst h5
      rw [List.cons_append, List.cons_append, List.nil_append, parseJStr.eq_def]
      simp [unescapeChar, ih rest]
    rw [if_neg h5]
    by_cases h6 : c = '\r'
    · rw [if_pos h6]; subst h6
      rw [List.cons_append, List.cons_append, List.nil_append, parseJStr.eq_def]
      simp [unescapeChar, ih rest]
    rw [if_neg h6]
    by_cases h7 : c = '\t'
    · rw [if_pos h7]; subst h7
      rw [List.cons_append, List.cons_append, List.nil_append, parseJStr.eq_def]
      simp [unescapeChar, ih rest]
    rw [if_neg h7]
    by_cases h8 : c.toNat < 32
    · rw [if_pos h8]
      have hhi : hexVal (hexDigitChar (c.toNat / 16)) = some (c.toNat / 16) :=
        hexVal_hexDigitChar (by omega)
      have hlo : hexVal (hexDigitChar (c.toNat % 16)) = some (c.toNat % 16) :=
        hexVal_hexDigitChar (by omega)
      have h0 : hexVal '0' = some 0 := by decide
      simp only [List.cons_append, List.nil_append]
      rw [parseJStr.eq_def]
      simp [hhi, hlo, h0, ih rest]
      rw [show c.toNat / 16 * 16 + c.toNat % 16 = c.toNat from by omega, Char.ofNat_toNat]
    · rw [if_neg h8]
      simp only [List.cons_append, List.nil_append]
      rw [parseJStr.eq_def]
      dsimp only
      rw [if_neg h2, if_neg h1, if_neg h8]
      simp [ih rest]

theorem jdump_cons (v : JVal) (k : Nat) :
    ∃ c tl, jdump v k = c :: tl ∧ jsonWs c = false ∧ c ≠ ']' := by
  cases v with
  | jnull => exact ⟨'n', _, rfl, by decide, by decide⟩
  | jbool b =>
    cases b with
    | false => exact ⟨'f', _, rfl, by decide, by decide⟩
    | true => exact ⟨'t', _, rfl, by decide, by decide⟩
  | jint n =>
    show ∃ c tl, intChars n = c :: tl ∧ _
    unfold intChars
    by_cases h : n < 0
    · rw [if_pos h]
      exact ⟨'-', _, rfl, by decide, by decide⟩
    · rw [if_neg h]
      obtain ⟨r, tl, hr, _, hchars⟩ := natChars_cons n.toNat
      refine ⟨Char.ofNat (48 + r), tl, hchars, ?_, ?_⟩
      · have hd : ∀ r, r < 10 → jsonWs (Char.ofNat (48 + r)) = false := by decide
        exact hd r hr
      · have hd : ∀ r, r < 10 → Char.ofNat (48 + r) ≠ ']' := by decide
        exact hd r hr
  | jstr s => exact ⟨'"', _, rfl, by decide, by decide⟩
  | jarr t =>
    cases t with
    | anil => exact ⟨'[', _, rfl, by decide, by decide⟩
    | acons v2 t2 => exact ⟨'[', _, rfl, by decide, by decide⟩
  | jobj o =>
    cases o with
    | onil => exact ⟨Char.ofNat 123, _, rfl, by decide, by decide⟩
    | ocons key v2 o2 => exact ⟨Char.ofNat 123, _, rfl, by decide, by decide⟩

theorem jskipWs_jdump (v : JVal) (k : Nat) (x : List Char) :
    jskipWs (jdump v k ++ x) = jdump v k ++ x := by
  obtain ⟨c, tl, hc, hws, _⟩ := jdump_cons v k
  rw [hc, List.cons_append, jskipWs_not_ws _ hws]

theorem goodAfter_arrTail (t : JArr) (k : Nat) (z : List Char) :
    goodAfter (jdumpArrTail t k ++ '\n' :: z) = true := by
  cases t <;> rfl

theorem goodAfter_objTail (o : JObj) (k : Nat) (z : List Char) :
    goodAfter (jdumpObjTail o k ++ '\n' :: z) = true := by
  cases o <;> rfl

theorem keyChars_cons (key : JKey) : ∃ tl, keyChars key = '"' :: tl := by
  cases key with
  | kstr s => exact ⟨_, rfl⟩
  | kint n => exact ⟨_, rfl⟩

theorem intChars_head (n : Int) :
    ∃ c tl, intChars n = c :: tl ∧ jsonWs c = false ∧
      c ≠ 'n' ∧ c ≠ 't' ∧ c ≠ 'f' ∧ c ≠ '"' ∧ c ≠ '[' ∧ c ≠ Char.ofNat 123 := by
  unfold intChars
  by_cases h : n < 0
  · rw [if_pos h]
    exact ⟨'-', _, rfl, by decide, by decide, by decide, by decide, by decide,
      by decide, by decide⟩
  · rw [if_neg h]
    obtain ⟨r, tl, hr, _, hchars⟩ := natChars_cons n.toNat
    refine ⟨Char.ofNat (48 + r), tl, hchars, ?_, ?_, ?_, ?_, ?_, ?_, ?_⟩
    · have hd : ∀ r, r < 10 → jsonWs (Char.ofNat (48 + r)) = false := by decide
      exact hd r hr
    · have hd : ∀ r, r < 10 → Char.ofNat (48 + r) ≠ 'n' := by decide
      exact hd r hr
    · have hd : ∀ r, r < 10 → Char.ofNat (48 + r) ≠ 't' := by decide
      exact hd r hr
    · have hd : ∀ r, r < 10 → Char.ofNat (48 + r) ≠ 'f' := by decide
      exact hd r hr
    · have hd : ∀ r, r < 10 → Char.ofNat (48 + r) ≠ '"' := by decide
      exact hd r hr
    · have hd : ∀ r, r < 10 → Char.ofNat (48 + r) ≠ '[' := by decide
      exact hd r hr
    · have hd : ∀ r, r < 10 → Char.ofNat (48 + r) ≠ Char.ofNat 123 := by decide
      exact hd r hr

mutual
/-- Parsing the pretty-printed form of a well-formed value consumes exactly
that text and reconstructs the value. -/
theorem jparse_jdump : ∀ (v : JVal) (k : Nat) (rest : List Char) (fuel : Nat),
    jwf v = true → goodAfter rest = true →
    (jdump v k ++ rest).length < fuel →
    jparse fuel (jdump v k ++ rest) = some (v, rest)
  | .jnull, k, rest, fuel, hwf, hrest, hfuel => by
    cases fuel with
    | zero => omega
    | succ f =>
      show jparse (f + 1) ('n' :: 'u' :: 'l' :: 'l' :: rest) = _
      rw [jparse.eq_def]
      dsimp only
      rw [jskipWs_not_ws _ (by decide : jsonWs 'n' = false)]
      simp
  | .jbool true, k, rest, fuel, hwf, hrest, hfuel => by
    cases fuel with
    | zero => omega
    | succ f =>
      show jparse (f + 1) ('t' :: 'r' :: 'u' :: 'e' :: rest) = _
      rw [jparse.eq_def]
      dsimp only
      rw [jskipWs_not_ws _ (by decide : jsonWs 't' = false)]
      simp
  | .jbool false, k, rest, fuel, hwf, hrest, hfuel => by
    cases fuel with
    | zero => omega
    | succ f =>
      show jparse (f + 1) ('f' :: 'a' :: 'l' :: 's' :: 'e' :: rest) = _
      rw [jparse.eq_def]
      dsimp only
      rw [jskipWs_not_ws _ (by decide : jsonWs 'f' = false)]
      simp
  | .jint n, k, rest, fuel, hwf, hrest, hfuel => by
    cases fuel with
    | zero => omega
    | succ f =>
      obtain ⟨c, tl, hc, hws, hn, ht, hf, hq, hbr, hbrace⟩ := intChars_head n
      have hI : jdump (.jint n) k ++ rest = c :: (tl ++ rest) := by
        show intChars n ++ rest = _
        rw [hc, List.cons_append]
      rw [hI, jparse.eq_def]
      dsimp only
      rw [jskipWs_not_ws _ hws]
      dsimp only
      rw [if_neg hn, if_neg ht, if_neg hf, if_neg hq, if_neg hbr, if_neg hbrace]
      rw [show (c :: (tl ++ rest)) = intChars n ++ rest from hI ▸ rfl]
      rw [parseIntNum_intChars n rest hrest]
      rfl
  | .jstr s, k, rest, fuel, hwf, hrest, hfuel => by
    cases fuel with
    | zero => omega
    | succ f =>
      have hI : jdump (.jstr s) k ++ rest = '"' :: (escList s ++ ('"' :: rest)) := by
        show ('"' :: (escList s ++ ['"'])) ++ rest = _
        simp
      rw [hI, jparse.eq_def]
      dsimp only
      rw [jskipWs_not_ws _ (by decide : jsonWs '"' = false)]
      dsimp only
      rw [if_neg (by decide), if_neg (by decide), if_neg (by decide), if_pos rfl,
        parseJStr_escList s rest]
      rfl
  | .jarr .anil, k, rest, fuel, hwf, hrest, hfuel => by
    cases fuel with
    | zero => omega
    | succ f =>
      show jparse (f + 1) ('[' :: ']' :: rest) = _
      rw [jparse.eq_def]
      dsimp only
      rw [jskipWs_not_ws _ (by decide : jsonWs '[' = false)]
      dsimp only
      rw [if_neg (by decide), if_neg (by decide), if_neg (by decide),
        if_neg (by decide), if_pos rfl]
      rw [jskipWs_not_ws _ (by decide : jsonWs ']' = false)]
      cases f with
      | zero =>
        rw [show jdump (.jarr .anil) k ++ rest = '[' :: ']' :: rest from rfl] at hfuel
        simp at hfuel
      | succ f2 =>
        rw [jparseArr.eq_def]
        simp
  | .jarr (.acons v2 t2), k, rest, fuel, hwf, hrest, hfuel => by
    cases fuel with
    | zero => omega
    | succ f =>
      have hI : jdump (.jarr (.acons v2 t2)) k ++ rest
          = '[' :: '\n' :: (jindent (k + 1) ++ (jdump v2 (k + 1)
            ++ (jdumpArrTail t2 (k + 1) ++ '\n' :: (jindent k ++ (']' :: rest))))) := by
        show ('[' :: '\n' :: (jindent (k + 1) ++ (jdump v2 (k + 1)
          ++ (jdumpArrTail t2 (k + 1) ++ '\n' :: (jindent k ++ [']']))))) ++ rest = _
        simp
      simp only [jwf, jwfArr, Bool.and_eq_true] at hwf
      rw [hI] at hfuel ⊢
      rw [jparse.eq_def]
      dsimp only
      rw [jskipWs_not_ws _ (by decide : jsonWs '[' = false)]
      dsimp only
      rw [if_neg (by decide), if_neg (by decide), if_neg (by decide),
        if_neg (by decide), if_pos rfl]
      rw [jskipWs_nl, jskipWs_jindent, jskipWs_jdump]
      apply jparseArr_ne v2 t2 k rest f hwf.1 hwf.2
      simp only [List.length_cons, List.length_append, jindent,
        List.length_replicate] at hfuel ⊢
      omega
  | .jobj .onil, k, rest, fuel, hwf, hrest, hfuel => by
    cases fuel with
    | zero => omega
    | succ f =>
      show jparse (f + 1) (Char.ofNat 123 :: Char.ofNat 125 :: rest) = _
      rw [jparse.eq_def]
      dsimp only
      rw [jskipWs_not_ws _ (by decide : jsonWs (Char.ofNat 123) = false)]
      dsimp only
      rw [if_neg (by decide), if_neg (by decide), if_neg (by decide),
        if_neg (by decide), if_neg (by decide), if_pos rfl]
      rw [jskipWs_not_ws _ (by decide : jsonWs (Char.ofNat 125) = false)]
      cases f with
      | zero =>
        rw [show jdump (.jobj .onil) k ++ rest
          = Char.ofNat 123 :: Char.ofNat 125 :: rest from rfl] at hfuel
        simp at hfuel
      | succ f2 =>
        rw [jparseObj.eq_def]
        simp
  | .jobj (.ocons key v2 o2), k, rest, fuel, hwf, hrest, hfuel => by
    cases fuel with
    | zero => omega
    | succ f =>
      obtain ⟨ktl, hkc⟩ := keyChars_cons key
      have hI : jdump (.jobj (.ocons key v2 o2)) k ++ rest
          = Char.ofNat 123 :: '\n' :: (jindent (k + 1) ++ (keyChars key
            ++ (':' :: ' ' :: (jdump v2 (k + 1) ++ (jdumpObjTail o2 (k + 1)
            ++ '\n' :: (jindent k ++ (Char.ofNat 125 :: rest))))))) := by
        show (Char.ofNat 123 :: '\n' :: (jindent (k + 1) ++ (keyChars key
          ++ ':' :: ' ' :: (jdump v2 (k + 1) ++ (jdumpObjTail o2 (k + 1)
          ++ '\n' :: (jindent k ++ [Char.ofNat 125])))))) ++ rest = _
        simp
      rw [hI] at hfuel ⊢
      rw [jparse.eq_def]
      dsimp only
      rw [jskipWs_not_ws _ (by decide : jsonWs (Char.ofNat 123) = false)]
      dsimp only
      rw [if_neg (by decide), if_neg (by decide), if_neg (by decide),
        if_neg (by decide), if_neg (by decide), if_pos rfl]
      rw [jskipWs_nl, jskipWs_jindent]
      rw [show keyChars key ++ (':' :: ' ' :: (jdump v2 (k + 1) ++ (jdumpObjTail o2 (k + 1)
        ++ '\n' :: (jindent k ++ (Char.ofNat 125 :: rest)))))
          = '"' :: (ktl ++ (':' :: ' ' :: (jdump v2 (k + 1) ++ (jdumpObjTail o2 (k + 1)
        ++ '\n' :: (jindent k ++ (Char.ofNat 125 :: rest)))))) from by rw [hkc]; rfl]
      rw [jskipWs_not_ws _ (by decide : jsonWs '"' = false)]
      rw [show ('"' : Char) :: (ktl ++ (':' :: ' ' :: (jdump v2 (k + 1)
        ++ (jdumpObjTail o2 (k + 1) ++ '\n' :: (jindent k ++ (Char.ofNat 125 :: rest))))))
          = keyChars key ++ (':' :: ' ' :: (jdump v2 (k + 1) ++ (jdumpObjTail o2 (k + 1)
        ++ '\n' :: (jindent k ++ (Char.ofNat 125 :: rest))))) from by rw [hkc]; rfl]
      apply jparseObj_ne key v2 o2 k rest f hwf
      simp only [List.length_cons, List.length_append, jindent,
        List.length_replicate] at hfuel ⊢
      omega
termination_by v => sizeOf v
decreasing_by all_goals (simp_wf; try omega)

/-- Parsing the items of a dumped non-empty array. -/
theorem jparseArr_ne (v : JVal) (t : JArr) : ∀ (k : Nat) (rest : List Char) (fuel : Nat),
    jwf v = true → jwfArr t = true →
    (jdump v (k + 1) ++ (jdumpArrTail t (k + 1)
      ++ '\n' :: (jindent k ++ (']' :: rest)))).length + 1 < fuel →
    jparseArr fuel (jdump v (k + 1) ++ (jdumpArrTail t (k + 1)
      ++ '\n' :: (jindent k ++ (']' :: rest))))
      = some (.jarr (.acons v t), rest) := by
  intro k rest fuel hwfv hwft hfuel
  cases fuel with
  | zero => omega
  | succ f =>
    obtain ⟨c, tl, hc, _, hne⟩ := jdump_cons v (k + 1)
    have hI : jdump v (k + 1) ++ (jdumpArrTail t (k + 1)
        ++ '\n' :: (jindent k ++ (']' :: rest)))
        = c :: (tl ++ (jdumpArrTail t (k + 1) ++ '\n' :: (jindent k ++ (']' :: rest)))) := by
      rw [hc, List.cons_append]
    rw [hI, jparseArr.eq_def]
    dsimp only
    rw [if_neg hne]
    rw [show (c :: (tl ++ (jdumpArrTail t (k + 1) ++ '\n' :: (jindent k ++ (']' :: rest)))))
        = jdump v (k + 1) ++ (jdumpArrTail t (k + 1) ++ '\n' :: (jindent k ++ (']' :: rest)))
      from hI ▸ rfl]
    rw [jparse_jdump v (k + 1) _ f hwfv (goodAfter_arrTail t (k + 1) _) (by
      simp only [List.length_cons, List.length_append] at hfuel ⊢
      omega)]
    dsimp only
    rw [jparseArrTail_dump t (k + 1) k rest f hwft (by
      have hlen : (jdump v (k + 1)).length = tl.length + 1 := by rw [hc]; rfl
      simp only [List.length_cons, List.length_append, hlen] at hfuel ⊢
      omega)]
termination_by sizeOf v + sizeOf t + 1
decreasing_by all_goals (simp_wf; try omega)

/-- Parsing the dumped tail of an array item list. -/
theorem jparseArrTail_dump : ∀ (t : JArr) (k1 k0 : Nat) (rest : List Char) (fuel : Nat),
    jwfArr t = true →
    (jdumpArrTail t k1 ++ '\n' :: (jindent k0 ++ (']' :: rest))).length + 1 < fuel →
    jparseArrTail fuel (jskipWs (jdumpArrTail t k1 ++ '\n' :: (jindent k0 ++ (']' :: rest))))
      = some (t, rest)
  | .anil, k1, k0, rest, fuel, hwf, hfuel => by
    cases fuel with
    | zero => omega
    | succ f =>
      show jparseArrTail (f + 1) (jskipWs ('\n' :: (jindent k0 ++ (']' :: rest)))) = _
      rw [jskipWs_nl, jskipWs_jindent, jskipWs_not_ws _ (by decide : jsonWs ']' = false)]
      rw [jparseArrTail.eq_def]
      simp
  | .acons v2 t2, k1, k0, rest, fuel, hwf, hfuel => by
    cases fuel with
    | zero => omega
    | succ f =>
      simp only [jwfArr, Bool.and_eq_true] at hwf
      have hI : jdumpArrTail (.acons v2 t2) k1 ++ '\n' :: (jindent k0 ++ (']' :: rest))
          = ',' :: '\n' :: (jindent k1 ++ (jdump v2 k1 ++ (jdumpArrTail t2 k1
            ++ '\n' :: (jindent k0 ++ (']' :: rest))))) := by
        show (',' :: '\n' :: (jindent k1 ++ (jdump v2 k1 ++ jdumpArrTail t2 k1)))
          ++ '\n' :: (jindent k0 ++ (']' :: rest)) = _
        simp
      rw [hI] at hfuel ⊢
      rw [jskipWs_not_ws _ (by decide : jsonWs ',' = false)]
      rw [jparseArrTail.eq_def]
      dsimp only
      rw [if_neg (by decide), if_pos rfl]
      rw [jskipWs_nl, jskipWs_jindent, jskipWs_jdump]
      rw [jparse_jdump v2 k1 _ f hwf.1 (goodAfter_arrTail t2 k1 _) (by
        simp only [List.length_cons, List.length_append, jindent,
          List.length_replicate] at hfuel ⊢
        omega)]
      dsimp only
      rw [jparseArrTail_dump t2 k1 k0 rest f hwf.2 (by
        have hlen : 1 ≤ (jdump v2 k1).length := by
          obtain ⟨c, tl, hc, _, _⟩ := jdump_cons v2 k1
          rw [hc]
          simp
        simp only [List.length_cons, List.length_append, jindent,
          List.length_replicate] at hfuel ⊢
        omega)]
termination_by t => sizeOf t
decreasing_by all_goals (simp_wf; try omega)

/-- Parsing the members of a dumped non-empty object. -/
theorem jparseObj_ne : ∀ (key : JKey) (v : JVal) (o : JObj)
    (k : Nat) (rest : List Char) (fuel : Nat),
    jwfObj (.ocons key v o) = true →
    (keyChars key ++ (':' :: ' ' :: (jdump v (k + 1) ++ (jdumpObjTail o (k + 1)
      ++ '\n' :: (jindent k ++ (Char.ofNat 125 :: rest)))))).length + 1 < fuel →
    jparseObj fuel (keyChars key ++ (':' :: ' ' :: (jdump v (k + 1)
      ++ (jdumpObjTail o (k + 1) ++ '\n' :: (jindent k ++ (Char.ofNat 125 :: rest))))))
      = some (.jobj (.ocons key v o), rest)
  | .kint m, v, o, k, rest, fuel, hwf, hfuel => by
    simp [jwfObj] at hwf
  | .kstr s, v, o, k, rest, fuel, hwf, hfuel => by
    simp only [jwfObj, Bool.and_eq_true] at hwf
    cases fuel with
    | zero => omega
    | succ f =>
      have hI : keyChars (.kstr s) ++ (':' :: ' ' :: (jdump v (k + 1)
          ++ (jdumpObjTail o (k + 1) ++ '\n' :: (jindent k ++ (Char.ofNat 125 :: rest)))))
          = '"' :: (escList s ++ ('"' :: (':' :: ' ' :: (jdump v (k + 1)
            ++ (jdumpObjTail o (k + 1)
              ++ '\n' :: (jindent k ++ (Char.ofNat 125 :: rest))))))) := by
        show ('"' :: (escList s ++ ['"'])) ++ _ = _
        simp
      rw [hI] at hfuel ⊢
      rw [jparseObj.eq_def]
      dsimp only
      rw [if_neg (by decide), if_pos rfl]
      rw [parseJStr_escList s _]
      dsimp only [Option.bind]
      rw [jskipWs_colon]
      dsimp only
      rw [if_pos rfl]
      rw [jskipWs_sp, jskipWs_jdump]
      rw [jparse_jdump v (k + 1) _ f hwf.1.1 (goodAfter_objTail o (k + 1) _) (by
        simp only [List.length_cons, List.length_append] at hfuel ⊢
        omega)]
      dsimp only [Option.bind]
      rw [jparseObjTail_dump o (k + 1) k rest f hwf.1.2 (by
        have hlen : 1 ≤ (jdump v (k + 1)).length := by
          obtain ⟨c, tl, hc, _, _⟩ := jdump_cons v (k + 1)
          rw [hc]
          simp
        simp only [List.length_cons, List.length_append] at hfuel ⊢
        omega)]
      rfl
termination_by key v o => sizeOf key + sizeOf v + sizeOf o + 1
decreasing_by all_goals (simp_wf; try omega)

/-- Parsing the dumped tail of an object member list. -/
theorem jparseObjTail_dump : ∀ (o : JObj) (k1 k0 : Nat) (rest : List Char) (fuel : Nat),
    jwfObj o = true →
    (jdumpObjTail o k1 ++ '\n' :: (jindent k0 ++ (Char.ofNat 125 :: rest))).length + 1 < fuel →
    jparseObjTail fuel (jskipWs (jdumpObjTail o k1
      ++ '\n' :: (jindent k0 ++ (Char.ofNat 125 :: rest))))
      = some (o, rest)
  | .onil, k1, k0, rest, fuel, hwf, hfuel => by
    cases fuel with
    | zero => omega
    | succ f =>
      show jparseObjTail (f + 1)
        (jskipWs ('\n' :: (jindent k0 ++ (Char.ofNat 125 :: rest)))) = _
      rw [jskipWs_nl, jskipWs_jindent,
        jskipWs_not_ws _ (by decide : jsonWs (Char.ofNat 125) = false)]
      rw [jparseObjTail.eq_def]
      simp
  | .ocons (.kint m) v2 o2, k1, k0, rest, fuel, hwf, hfuel => by
    simp [jwfObj] at hwf
  | .ocons (.kstr s2) v2 o2, k1, k0, rest, fuel, hwf, hfuel => by
    cases fuel with
    | zero => omega
    | succ f =>
      simp only [jwfObj, Bool.and_eq_true] at hwf
      have hI : jdumpObjTail (.ocons (.kstr s2) v2 o2) k1
          ++ '\n' :: (jindent k0 ++ (Char.ofNat 125 :: rest))
          = ',' :: '\n' :: (jindent k1 ++ ('"' :: (escList s2 ++ ('"' :: (':' :: ' '
            :: (jdump v2 k1 ++ (jdumpObjTail o2 k1
              ++ '\n' :: (jindent k0 ++ (Char.ofNat 125 :: rest))))))))) := by
        show (',' :: '\n' :: (jindent k1 ++ (('"' :: (escList s2 ++ ['"']))
          ++ ':' :: ' ' :: (jdump v2 k1 ++ jdumpObjTail o2 k1))))
          ++ '\n' :: (jindent k0 ++ (Char.ofNat 125 :: rest)) = _
        simp
      rw [hI] at hfuel ⊢
      rw [jskipWs_not_ws _ (by decide : jsonWs ',' = false)]
      rw [jparseObjTail.eq_def]
      dsimp only
      rw [if_neg (by decide), if_pos rfl]
      rw [jskipWs_nl, jskipWs_jindent, jskipWs_quote]
      dsimp only
      rw [if_pos rfl]
      rw [parseJStr_escList s2 _]
      dsimp only [Option.bind]
      rw [jskipWs_colon]
      dsimp only
      rw [if_pos rfl]
      rw [jskipWs_sp, jskipWs_jdump]
      rw [jparse_jdump v2 k1 _ f hwf.1.1 (goodAfter_objTail o2 k1 _) (by
        simp only [List.length_cons, List.length_append, jindent,
          List.length_replicate] at hfuel ⊢
        omega)]
      dsimp only [Option.bind]
      rw [jparseObjTail_dump o2 k1 k0 rest f hwf.1.2 (by
        have hlen : 1 ≤ (jdump v2 k1).length := by
          obtain ⟨c, tl, hc, _, _⟩ := jdump_cons v2 k1
          rw [hc]
          simp
        simp only [List.length_cons, List.length_append, jindent,
          List.length_replicate] at hfuel ⊢
        omega)]
      rfl
termination_by o => sizeOf o
decreasing_by all_goals (simp_wf; try omega)
end

/-- **C7 counterexample**: the round-trip law fails on a dict with an
integer key.  `json.dumps` coerces the key `1` to the string `"1"`, so
`json.loads` of the exported bytes returns the object with string key
`"1"`, which is a different mapping than the input with integer key `1`. -/
theorem export_json_roundtrip_claim_false :
    (export_json (JVal.jobj (JObj.ocons (JKey.kint 1)
        (JVal.jstr ['a']) JObj.onil))).bind json_loads
      = some (JVal.jobj (JObj.ocons (JKey.kstr ['1'])
        (JVal.jstr ['a']) JObj.onil)) ∧
    JVal.jobj (JObj.ocons (JKey.kstr ['1']) (JVal.jstr ['a']) JObj.onil)
      ≠ JVal.jobj (JObj.ocons (JKey.kint 1) (JVal.jstr ['a']) JObj.onil) := by
  constructor
  · decide
  · decide

/-- **C7 amended** (round-trip for well-formed inputs): for every dict or
list built from null, booleans, ints, strings, lists and string-keyed
dicts (the `jwf` values), parsing the bytes produced by `export_json`
yields exactly the original structure. -/
theorem export_json_roundtrip (data : JVal) (out : List Char)
    (hwf : jwf data = true) (hexp : export_json data = some out) :
    json_loads out = some data := by
  have hout : out = jdump data 0 := by
    cases data <;> simp [export_json] at hexp <;> exact hexp.symm
  subst hout
  have h := jparse_jdump data 0 [] ((jdump data 0).length + 1) hwf rfl
    (by simp)
  simp only [List.append_nil] at h
  simp [json_loads, h, jskipWs]

/-- Witness for C7 at the concrete dict `\x7b"a": [1, "b"]\x7d`. -/
theorem export_json_roundtrip_witness :
    json_loads (jdump (JVal.jobj (JObj.ocons (JKey.kstr ['a'])
        (JVal.jarr (JArr.acons (JVal.jint 1)
          (JArr.acons (JVal.jstr ['b']) JArr.anil))) JObj.onil)) 0)
      = some (JVal.jobj (JObj.ocons (JKey.kstr ['a'])
        (JVal.jarr (JArr.acons (JVal.jint 1)
          (JArr.acons (JVal.jstr ['b']) JArr.anil))) JObj.onil)) :=
  export_json_roundtrip _ _ (by decide) rfl
